import Mathlib

/-
Shallow embedding of the rvemu core (doruche/rvemu): guest memory
(src/core/src/guest.rs), architectural state (src/core/src/state.rs), the
RV64I decoder and executors (src/core/src/insn/rv64i.rs, src/core/src/insn/mod.rs),
and the hart step (src/core/src/hart.rs).

Machine integers are modelled as Nat with explicit reduction modulo 2^64
where the Rust code wraps (release overflow semantics); i64 views are Int.
A Rust panic (assert!, unimplemented!, out-of-bounds slice indexing) is the
explicit Outcome.panic result.  Fields of GuestMem that no claim touches
(program break, stack bookkeeping) are omitted; the BTreeMap of segments is
a list ordered by its key, the page-aligned segment base.
-/

namespace Rvemu

/-- PAGE_SIZE in guest.rs. -/
def PAGE : Nat := 4096

/-- The modulus of u64 arithmetic. -/
def U64 : Nat := 2 ^ 64

/-- round_down!(val, PAGE_SIZE): val & !(PAGE_SIZE - 1) on a 64-bit usize. -/
def round_down64 (v : Nat) : Nat := v / PAGE * PAGE

/-- round_up!(val, PAGE_SIZE): (val + PAGE_SIZE - 1) & !(PAGE_SIZE - 1) on a
64-bit usize, with the addition wrapping. -/
def round_up64 (v : Nat) : Nat := (v + (PAGE - 1)) % U64 / PAGE * PAGE

/-- sign_extend!(val, bits) = ((val as i64) << (64 - bits)) >> (64 - bits),
viewed as a mathematical integer: the low `bits` bits interpreted in twos
complement. -/
def sign_extend (v bits : Nat) : Int :=
  if v % 2 ^ bits < 2 ^ (bits - 1) then ((v % 2 ^ bits : Nat) : Int)
  else ((v % 2 ^ bits : Nat) : Int) - 2 ^ bits

/-- zero_extend!(val, bits) = (val as u64) & ((1u64 << bits) - 1). -/
def zero_extend (v bits : Nat) : Nat := v &&& (2 ^ bits - 1)

/-- The u64 bit pattern of an i64 value (an `as u64` cast). -/
def asU64 (i : Int) : Nat := (i % (U64 : Int)).toNat

/-- sign_extend! followed by an `as u64` cast, staying in Nat. -/
def sxt64 (v bits : Nat) : Nat :=
  if v % 2 ^ bits < 2 ^ (bits - 1) then v % 2 ^ bits
  else v % 2 ^ bits + (U64 - 2 ^ bits)

/-- The i64 view of a u64 bit pattern (an `as i64` cast). -/
def toI64 (v : Nat) : Int :=
  if v % U64 < 2 ^ 63 then ((v % U64 : Nat) : Int)
  else ((v % U64 : Nat) : Int) - (U64 : Int)

/-- MemAccess in guest.rs. -/
inductive MemAccess
  | read
  | write
  | execute
deriving DecidableEq

/-- The Error variants the embedded code paths construct (src/core/src/error.rs
together with the variants guest.rs and hart.rs refer to).  String payloads are
dropped. -/
inductive Error
  | invalidElfHdr
  | memAccessFault (access : MemAccess) (gaddr : Nat)
  | permissionDenied
  | segmentOverlap
  | outOfBounds
  | unimplemented
  | internalError
deriving DecidableEq

/-- The result of running a piece of the Rust code: a normal value, a returned
error, or a panic (assert!, unimplemented!, slice indexing out of bounds). -/
inductive Outcome (α : Type)
  | ok (a : α)
  | err (e : Error)
  | panic
deriving DecidableEq

/-- MemFlags::READ. -/
def MF_READ : Nat := 1
/-- MemFlags::WRITE. -/
def MF_WRITE : Nat := 2
/-- MemFlags::EXECUTE. -/
def MF_EXECUTE : Nat := 4

/-- bitflags contains: (self.bits & other.bits) == other.bits. -/
def flagsContains (f c : Nat) : Prop := f &&& c = c

instance (f c : Nat) : Decidable (flagsContains f c) := by
  unfold flagsContains; infer_instance

/-- MemSegment in guest.rs.  The host mmap is a byte function together with its
length (the mmap length `m_len`); indexing past `host_len` is the panic the
corresponding Rust slice indexing would raise. -/
structure MemSegment where
  gaddr_start : Nat
  gaddr_end : Nat
  m_gaddr_start : Nat
  m_gaddr_end : Nat
  host_len : Nat
  host : Nat → Nat
  flags : Nat

/-- MemSegment::contains: gaddr >= self.gaddr_start && gaddr < self.m_gaddr_end. -/
def MemSegment.contains (s : MemSegment) (gaddr : Nat) : Prop :=
  s.gaddr_start ≤ gaddr ∧ gaddr < s.m_gaddr_end

instance (s : MemSegment) (a : Nat) : Decidable (s.contains a) := by
  unfold MemSegment.contains; infer_instance

/-- MemSegment::allows. -/
def MemSegment.allows (s : MemSegment) (access : MemAccess) : Prop :=
  match access with
  | .read => flagsContains s.flags MF_READ
  | .write => flagsContains s.flags MF_WRITE
  | .execute => flagsContains s.flags MF_EXECUTE

instance (s : MemSegment) (acc : MemAccess) : Decidable (s.allows acc) := by
  unfold MemSegment.allows
  cases acc <;> infer_instance

/-- GuestMem in guest.rs.  Only the segment table is modelled; the program
break and stack bookkeeping fields play no role in any claim.  The BTreeMap
keyed by m_gaddr_start is a list kept ordered by that key. -/
structure GuestMem where
  segments : List MemSegment

/-- GuestMem::new(). -/
def GuestMem.new : GuestMem := ⟨[]⟩

/-- List indexing helper (self-contained counterpart of List.get?). -/
def getIdx : List MemSegment → Nat → Option MemSegment
  | [], _ => none
  | s :: _, 0 => some s
  | _ :: r, k + 1 => getIdx r k

/-- List update helper (self-contained counterpart of List.set). -/
def setIdx : List MemSegment → Nat → MemSegment → List MemSegment
  | [], _, _ => []
  | _ :: r, 0, t => t :: r
  | s :: r, k + 1, t => s :: setIdx r k t

/-- Pair each segment with its position, starting at n. -/
def withIdx : Nat → List MemSegment → List (Nat × MemSegment)
  | _, [] => []
  | n, s :: r => (n, s) :: withIdx (n + 1) r

/-- The loop of GuestMem::decompose / decompose_mut: walk the segments whose
key (m_gaddr_start) is <= gaddr, in descending key order, and stop at the
first whose `contains` range holds gaddr. -/
def decompGo (a : Nat) (access : MemAccess) :
    List (Nat × MemSegment) → Outcome (Nat × MemSegment)
  | [] => .err (.memAccessFault access a)
  | (i, t) :: rest =>
    if t.m_gaddr_start ≤ a ∧ t.contains a then
      if t.allows access then .ok (i, t) else .err .permissionDenied
    else decompGo a access rest

/-- GuestMem::decompose (and decompose_mut): the segment (with its position in
the table) containing gaddr, after the permission check. -/
def GuestMem.decompose (g : GuestMem) (a : Nat) (access : MemAccess) :
    Outcome (Nat × MemSegment) :=
  decompGo a access ((withIdx 0 g.segments).reverse)

/-- GuestMem::read_u8. -/
def GuestMem.read_u8 (g : GuestMem) (a : Nat) : Outcome Nat :=
  match g.decompose a .read with
  | .ok (_, seg) =>
    if a < seg.m_gaddr_start then .panic
    else if a - seg.m_gaddr_start < seg.host_len then
      .ok (seg.host (a - seg.m_gaddr_start))
    else .panic
  | .err e => .err e
  | .panic => .panic

/-- GuestMem::write_u8. -/
def GuestMem.write_u8 (g : GuestMem) (a v : Nat) : Outcome GuestMem :=
  match g.decompose a .write with
  | .ok (i, seg) =>
    if a < seg.m_gaddr_start then .panic
    else if a - seg.m_gaddr_start < seg.host_len then
      .ok ⟨setIdx g.segments i
        { seg with host := fun j => if j = a - seg.m_gaddr_start then v else seg.host j }⟩
    else .panic
  | .err e => .err e
  | .panic => .panic

/-- GuestMem::read_u16: two byte reads, little-endian reassembly. -/
def GuestMem.read_u16 (g : GuestMem) (a : Nat) : Outcome Nat :=
  match g.read_u8 a with
  | .ok low =>
    match g.read_u8 ((a + 1) % U64) with
    | .ok high => .ok ((high <<< 8) ||| low)
    | .err e => .err e
    | .panic => .panic
  | .err e => .err e
  | .panic => .panic

/-- GuestMem::write_u16. -/
def GuestMem.write_u16 (g : GuestMem) (a v : Nat) : Outcome GuestMem :=
  match g.write_u8 a (v &&& 0xFF) with
  | .ok g1 =>
    match g1.write_u8 ((a + 1) % U64) (v >>> 8 % 256) with
    | .ok g2 => .ok g2
    | .err e => .err e
    | .panic => .panic
  | .err e => .err e
  | .panic => .panic

/-- GuestMem::read_u32: four byte reads, little-endian reassembly. -/
def GuestMem.read_u32 (g : GuestMem) (a : Nat) : Outcome Nat :=
  match g.read_u8 a with
  | .ok b0 =>
    match g.read_u8 ((a + 1) % U64) with
    | .ok b1 =>
      match g.read_u8 ((a + 2) % U64) with
      | .ok b2 =>
        match g.read_u8 ((a + 3) % U64) with
        | .ok b3 => .ok ((b3 <<< 24) ||| (b2 <<< 16) ||| (b1 <<< 8) ||| b0)
        | .err e => .err e
        | .panic => .panic
      | .err e => .err e
      | .panic => .panic
    | .err e => .err e
    | .panic => .panic
  | .err e => .err e
  | .panic => .panic

/-- GuestMem::write_u32. -/
def GuestMem.write_u32 (g : GuestMem) (a v : Nat) : Outcome GuestMem :=
  match g.write_u8 a (v &&& 0xFF) with
  | .ok g1 =>
    match g1.write_u8 ((a + 1) % U64) (v >>> 8 &&& 0xFF) with
    | .ok g2 =>
      match g2.write_u8 ((a + 2) % U64) (v >>> 16 &&& 0xFF) with
      | .ok g3 =>
        match g3.write_u8 ((a + 3) % U64) (v >>> 24 &&& 0xFF) with
        | .ok g4 => .ok g4
        | .err e => .err e
        | .panic => .panic
      | .err e => .err e
      | .panic => .panic
    | .err e => .err e
    | .panic => .panic
  | .err e => .err e
  | .panic => .panic

/-- The loop of GuestMem::read_u64: bytes 0..k-1 accumulated little-endian
(u64::from_le_bytes is the weighted sum of the bytes). -/
def read_le (g : GuestMem) (a : Nat) : Nat → Outcome Nat
  | 0 => .ok 0
  | k + 1 =>
    match read_le g a k with
    | .ok acc =>
      match g.read_u8 ((a + k) % U64) with
      | .ok b => .ok (acc + b * 2 ^ (8 * k))
      | .err e => .err e
      | .panic => .panic
    | .err e => .err e
    | .panic => .panic

/-- GuestMem::read_u64. -/
def GuestMem.read_u64 (g : GuestMem) (a : Nat) : Outcome Nat := read_le g a 8

/-- The loop of GuestMem::write_u64: value.to_le_bytes()[k] = v / 2^(8k) % 256. -/
def write_le (g : GuestMem) (a v : Nat) : Nat → Outcome GuestMem
  | 0 => .ok g
  | k + 1 =>
    match write_le g a v k with
    | .ok gk =>
      match gk.write_u8 ((a + k) % U64) (v / 2 ^ (8 * k) % 256) with
      | .ok g2 => .ok g2
      | .err e => .err e
      | .panic => .panic
    | .err e => .err e
    | .panic => .panic

/-- GuestMem::write_u64. -/
def GuestMem.write_u64 (g : GuestMem) (a v : Nat) : Outcome GuestMem :=
  write_le g a v 8

/-- One overlap test of the add_segment preflight loop, for one stored
segment with bounds s = seg.gaddr_start, e = seg.gaddr_end. -/
def overlapCond (a b s e : Nat) : Prop :=
  (a < s ∧ b > s) ∨ (a < e ∧ b > e) ∨ (a ≥ s ∧ b ≤ e) ∨ (a ≤ s ∧ b ≥ e)

instance (a b s e : Nat) : Decidable (overlapCond a b s e) := by
  unfold overlapCond; infer_instance

/-- The add_segment preflight loop over the stored segments. -/
def overlapAny : List MemSegment → Nat → Nat → Bool
  | [], _, _ => false
  | t :: r, a, b =>
    if overlapCond a b t.gaddr_start t.gaddr_end then true else overlapAny r a b

/-- BTreeMap::insert keyed by m_gaddr_start: sorted insert, replacing an
equal key. -/
def insertSorted : List MemSegment → MemSegment → List MemSegment
  | [], s => [s]
  | t :: rest, s =>
    if s.m_gaddr_start < t.m_gaddr_start then s :: t :: rest
    else if s.m_gaddr_start = t.m_gaddr_start then s :: rest
    else t :: insertSorted rest s

/-- The host mapping contents after the init_data copy: mmap is
zero-initialized, data lands at interior offset gaddr_start - m_gaddr_start. -/
def segInit (off : Nat) (data : List Nat) : Nat → Nat :=
  fun j => if off ≤ j ∧ j < off + data.length then data.getD (j - off) 0 else 0

/-- GuestMem::add_segment.  assert!(len != 0) and the assert inside
MemSegment::new are panics; the anonymous host mapping is modelled as always
allocatable (a zero function). -/
def GuestMem.add_segment (g : GuestMem) (gaddr_start len flags : Nat)
    (init_data : Option (List Nat)) : Outcome GuestMem :=
  if len = 0 then .panic
  else
    let gaddr_end := (gaddr_start + len) % U64
    let m_gaddr_start := round_down64 gaddr_start
    let m_gaddr_end := round_up64 gaddr_end
    let m_len := m_gaddr_end - m_gaddr_start
    if overlapAny g.segments m_gaddr_start m_gaddr_end then .err .segmentOverlap
    else if gaddr_start < gaddr_end then
      match init_data with
      | some data =>
        if data.length > len then .err .outOfBounds
        else .ok ⟨insertSorted g.segments
          ⟨gaddr_start, gaddr_end, m_gaddr_start, m_gaddr_end, m_len,
            segInit (gaddr_start - m_gaddr_start) data, flags⟩⟩
      | none => .ok ⟨insertSorted g.segments
          ⟨gaddr_start, gaddr_end, m_gaddr_start, m_gaddr_end, m_len,
            fun _ => 0, flags⟩⟩
    else .panic

/-- Well-formedness of one stored segment: exactly what add_segment
establishes for everything it inserts. -/
def MemSegment.WF (t : MemSegment) : Prop :=
  t.gaddr_start < t.gaddr_end ∧ t.gaddr_end < U64 ∧
  t.m_gaddr_start = round_down64 t.gaddr_start ∧
  t.m_gaddr_end = round_up64 t.gaddr_end ∧
  t.host_len = t.m_gaddr_end - t.m_gaddr_start

instance (t : MemSegment) : Decidable t.WF := by
  unfold MemSegment.WF; infer_instance

/-- Disjointness of the page-aligned ranges of two segments. -/
def segDisj (t u : MemSegment) : Prop :=
  t.m_gaddr_end ≤ u.m_gaddr_start ∨ u.m_gaddr_end ≤ t.m_gaddr_start

instance (t u : MemSegment) : Decidable (segDisj t u) := by
  unfold segDisj; infer_instance

/-- Well-formedness of the segment table: every stored segment is
well-formed and the page-aligned ranges are pairwise disjoint. -/
def GuestMem.WF (g : GuestMem) : Prop :=
  (∀ t ∈ g.segments, t.WF) ∧ g.segments.Pairwise segDisj

instance (g : GuestMem) : Decidable g.WF := by
  unfold GuestMem.WF
  exact instDecidableAnd

/-- BreakCause in state.rs (only the two causes the executors raise). -/
inductive BreakCause
  | ecall
  | ebreak
deriving DecidableEq

/-- State in state.rs: pc, the 32 GPRs (indexed function), the trap latch. -/
structure State where
  pc : Nat
  x : Nat → Nat
  break_on : Option BreakCause

/-- Write one register: state.x[i] = v. -/
def updX (x : Nat → Nat) (i v : Nat) : Nat → Nat :=
  fun j => if j = i then v else x j

/-- Instruction in insn/mod.rs (the forms the RV64I decoder builds; C is the
reserved compressed form, kept only for step_size). -/
inductive Instruction
  | R (funct7 rs2 rs1 funct3 rd opcode raw : Nat)
  | I (imm rs1 funct3 rd opcode raw : Nat)
  | S (imm rs2 rs1 funct3 opcode raw : Nat)
  | B (imm rs2 rs1 funct3 opcode raw : Nat)
  | U (imm rd opcode raw : Nat)
  | J (imm rd opcode raw : Nat)
  | C (opcode raw : Nat)

/-- Instruction::step_size: 2 for the compressed form, 4 otherwise. -/
def Instruction.step_size : Instruction → Nat
  | .C _ _ => 2
  | _ => 4

/-- Instruction::extract_imm for the I form: raw >> 20. -/
def imm_I (raw : Nat) : Nat := raw >>> 20

/-- Instruction::extract_imm for the S form. -/
def imm_S (raw : Nat) : Nat :=
  ((raw >>> 25 &&& 0x7f) <<< 5) ||| (raw >>> 7 &&& 0x1f)

/-- Instruction::extract_imm for the B form (a 13-bit value, bit 0 zero). -/
def imm_B (raw : Nat) : Nat :=
  ((raw >>> 31 &&& 0x1) <<< 12) ||| ((raw >>> 25 &&& 0x3f) <<< 5) |||
  ((raw >>> 8 &&& 0xf) <<< 1) ||| ((raw >>> 7 &&& 0x1) <<< 11)

/-- Instruction::extract_imm for the U form: raw & 0xfffff000. -/
def imm_U (raw : Nat) : Nat := raw &&& 0xfffff000

/-- Instruction::extract_imm for the J form (a 21-bit value, bit 0 zero). -/
def imm_J (raw : Nat) : Nat :=
  ((raw >>> 31 &&& 0x1) <<< 20) ||| ((raw >>> 21 &&& 0x3ff) <<< 1) |||
  ((raw >>> 20 &&& 0x1) <<< 11) ||| ((raw >>> 12 &&& 0xff) <<< 12)

/-- The Executor function type of insn/mod.rs, with the two &mut arguments
turned into an explicit result pair. -/
def ExecutorT : Type := State → GuestMem → Instruction → Outcome (State × GuestMem)

/-- rv64i_lui: x[rd] = zero_extend!(imm, 32). -/
def rv64i_lui : ExecutorT := fun s g insn =>
  match insn with
  | .U imm rd _ _ => .ok ({ s with x := updX s.x rd (zero_extend imm 32) }, g)
  | _ => .err .internalError

/-- rv64i_auipc: x[rd] = pc.wrapping_add(zero_extend!(imm, 32)). -/
def rv64i_auipc : ExecutorT := fun s g insn =>
  match insn with
  | .U imm rd _ _ =>
    .ok ({ s with x := updX s.x rd ((s.pc + zero_extend imm 32) % U64) }, g)
  | _ => .err .internalError

/-- Effective address of a load or store:
(x[rs1] as i64).wrapping_add(sign_extend!(imm, 12)) as u64. -/
def effAddr (s : State) (rs1 imm : Nat) : Nat :=
  asU64 (toI64 (s.x rs1) + sign_extend imm 12)

/-- rv64i_lb. -/
def rv64i_lb : ExecutorT := fun s g insn =>
  match insn with
  | .I imm rs1 _ rd _ _ =>
    match g.read_u8 (effAddr s rs1 imm) with
    | .ok b => .ok ({ s with x := updX s.x rd (sxt64 b 8) }, g)
    | .err e => .err e
    | .panic => .panic
  | _ => .err .internalError

/-- rv64i_lbu. -/
def rv64i_lbu : ExecutorT := fun s g insn =>
  match insn with
  | .I imm rs1 _ rd _ _ =>
    match g.read_u8 (effAddr s rs1 imm) with
    | .ok b => .ok ({ s with x := updX s.x rd (zero_extend b 8) }, g)
    | .err e => .err e
    | .panic => .panic
  | _ => .err .internalError

/-- rv64i_lh. -/
def rv64i_lh : ExecutorT := fun s g insn =>
  match insn with
  | .I imm rs1 _ rd _ _ =>
    match g.read_u16 (effAddr s rs1 imm) with
    | .ok b => .ok ({ s with x := updX s.x rd (sxt64 b 16) }, g)
    | .err e => .err e
    | .panic => .panic
  | _ => .err .internalError

/-- rv64i_lhu. -/
def rv64i_lhu : ExecutorT := fun s g insn =>
  match insn with
  | .I imm rs1 _ rd _ _ =>
    match g.read_u16 (effAddr s rs1 imm) with
    | .ok b => .ok ({ s with x := updX s.x rd (zero_extend b 16) }, g)
    | .err e => .err e
    | .panic => .panic
  | _ => .err .internalError

/-- rv64i_lw (the source zero-extends the loaded word). -/
def rv64i_lw : ExecutorT := fun s g insn =>
  match insn with
  | .I imm rs1 _ rd _ _ =>
    match g.read_u32 (effAddr s rs1 imm) with
    | .ok b => .ok ({ s with x := updX s.x rd (zero_extend b 32) }, g)
    | .err e => .err e
    | .panic => .panic
  | _ => .err .internalError

/-- rv64i_lwu. -/
def rv64i_lwu : ExecutorT := fun s g insn =>
  match insn with
  | .I imm rs1 _ rd _ _ =>
    match g.read_u32 (effAddr s rs1 imm) with
    | .ok b => .ok ({ s with x := updX s.x rd (zero_extend b 32) }, g)
    | .err e => .err e
    | .panic => .panic
  | _ => .err .internalError

/-- rv64i_ld. -/
def rv64i_ld : ExecutorT := fun s g insn =>
  match insn with
  | .I imm rs1 _ rd _ _ =>
    match g.read_u64 (effAddr s rs1 imm) with
    | .ok b => .ok ({ s with x := updX s.x rd b }, g)
    | .err e => .err e
    | .panic => .panic
  | _ => .err .internalError

/-- rv64i_sb. -/
def rv64i_sb : ExecutorT := fun s g insn =>
  match insn with
  | .S imm rs2 rs1 _ _ _ =>
    match g.write_u8 (effAddr s rs1 imm) (s.x rs2 &&& 0xff) with
    | .ok g2 => .ok (s, g2)
    | .err e => .err e
    | .panic => .panic
  | _ => .err .internalError

/-- rv64i_sh. -/
def rv64i_sh : ExecutorT := fun s g insn =>
  match insn with
  | .S imm rs2 rs1 _ _ _ =>
    match g.write_u16 (effAddr s rs1 imm) (s.x rs2 &&& 0xffff) with
    | .ok g2 => .ok (s, g2)
    | .err e => .err e
    | .panic => .panic
  | _ => .err .internalError

/-- rv64i_sw. -/
def rv64i_sw : ExecutorT := fun s g insn =>
  match insn with
  | .S imm rs2 rs1 _ _ _ =>
    match g.write_u32 (effAddr s rs1 imm) (s.x rs2 &&& 0xffffffff) with
    | .ok g2 => .ok (s, g2)
    | .err e => .err e
    | .panic => .panic
  | _ => .err .internalError

/-- rv64i_sd. -/
def rv64i_sd : ExecutorT := fun s g insn =>
  match insn with
  | .S imm rs2 rs1 _ _ _ =>
    match g.write_u64 (effAddr s rs1 imm) (s.x rs2) with
    | .ok g2 => .ok (s, g2)
    | .err e => .err e
    | .panic => .panic
  | _ => .err .internalError

/-- rv64i_addi: x[rd] = x[rs1].wrapping_add(sign_extend!(imm, 12) as u64). -/
def rv64i_addi : ExecutorT := fun s g insn =>
  match insn with
  | .I imm rs1 _ rd _ _ =>
    .ok ({ s with x := updX s.x rd ((s.x rs1 + sxt64 imm 12) % U64) }, g)
  | _ => .err .internalError

/-- rv64i_slli: x[rd] = x[rs1] << (imm & 0x1f) (the 5-bit source quirk). -/
def rv64i_slli : ExecutorT := fun s g insn =>
  match insn with
  | .I imm rs1 _ rd _ _ =>
    .ok ({ s with x := updX s.x rd ((s.x rs1 <<< (imm &&& 0x1f)) % U64) }, g)
  | _ => .err .internalError

/-- rv64i_srli. -/
def rv64i_srli : ExecutorT := fun s g insn =>
  match insn with
  | .I imm rs1 _ rd _ _ =>
    .ok ({ s with x := updX s.x rd (s.x rs1 >>> (imm &&& 0x1f)) }, g)
  | _ => .err .internalError

/-- rv64i_srai: arithmetic shift on the i64 view. -/
def rv64i_srai : ExecutorT := fun s g insn =>
  match insn with
  | .I imm rs1 _ rd _ _ =>
    .ok ({ s with x := updX s.x rd (asU64 (Int.fdiv (toI64 (s.x rs1)) (2 ^ (imm &&& 0x1f)))) }, g)
  | _ => .err .internalError

/-- rv64i_xori. -/
def rv64i_xori : ExecutorT := fun s g insn =>
  match insn with
  | .I imm rs1 _ rd _ _ =>
    .ok ({ s with x := updX s.x rd (s.x rs1 ^^^ sxt64 imm 12) }, g)
  | _ => .err .internalError

/-- rv64i_ori. -/
def rv64i_ori : ExecutorT := fun s g insn =>
  match insn with
  | .I imm rs1 _ rd _ _ =>
    .ok ({ s with x := updX s.x rd (s.x rs1 ||| sxt64 imm 12) }, g)
  | _ => .err .internalError

/-- rv64i_andi. -/
def rv64i_andi : ExecutorT := fun s g insn =>
  match insn with
  | .I imm rs1 _ rd _ _ =>
    .ok ({ s with x := updX s.x rd (s.x rs1 &&& sxt64 imm 12) }, g)
  | _ => .err .internalError

/-- rv64i_slti. -/
def rv64i_slti : ExecutorT := fun s g insn =>
  match insn with
  | .I imm rs1 _ rd _ _ =>
    .ok ({ s with x := updX s.x rd (if toI64 (s.x rs1) < sign_extend imm 12 then 1 else 0) }, g)
  | _ => .err .internalError

/-- rv64i_sltiu. -/
def rv64i_sltiu : ExecutorT := fun s g insn =>
  match insn with
  | .I imm rs1 _ rd _ _ =>
    .ok ({ s with x := updX s.x rd (if s.x rs1 < sxt64 imm 12 then 1 else 0) }, g)
  | _ => .err .internalError

/-- rv64i_add. -/
def rv64i_add : ExecutorT := fun s g insn =>
  match insn with
  | .R _ rs2 rs1 _ rd _ _ =>
    .ok ({ s with x := updX s.x rd ((s.x rs1 + s.x rs2) % U64) }, g)
  | _ => .err .internalError

/-- rv64i_sub (wrapping subtraction on u64 bit patterns). -/
def rv64i_sub : ExecutorT := fun s g insn =>
  match insn with
  | .R _ rs2 rs1 _ rd _ _ =>
    .ok ({ s with x := updX s.x rd ((s.x rs1 + (U64 - s.x rs2 % U64)) % U64) }, g)
  | _ => .err .internalError

/-- rv64i_sll (shift amount x[rs2] & 0x1f, the 5-bit source quirk). -/
def rv64i_sll : ExecutorT := fun s g insn =>
  match insn with
  | .R _ rs2 rs1 _ rd _ _ =>
    .ok ({ s with x := updX s.x rd ((s.x rs1 <<< (s.x rs2 &&& 0x1f)) % U64) }, g)
  | _ => .err .internalError

/-- rv64i_srl. -/
def rv64i_srl : ExecutorT := fun s g insn =>
  match insn with
  | .R _ rs2 rs1 _ rd _ _ =>
    .ok ({ s with x := updX s.x rd (s.x rs1 >>> (s.x rs2 &&& 0x1f)) }, g)
  | _ => .err .internalError

/-- rv64i_sra. -/
def rv64i_sra : ExecutorT := fun s g insn =>
  match insn with
  | .R _ rs2 rs1 _ rd _ _ =>
    .ok ({ s with x := updX s.x rd (asU64 (Int.fdiv (toI64 (s.x rs1)) (2 ^ (s.x rs2 &&& 0x1f)))) }, g)
  | _ => .err .internalError

/-- rv64i_xor. -/
def rv64i_xor : ExecutorT := fun s g insn =>
  match insn with
  | .R _ rs2 rs1 _ rd _ _ =>
    .ok ({ s with x := updX s.x rd (s.x rs1 ^^^ s.x rs2) }, g)
  | _ => .err .internalError

/-- rv64i_or. -/
def rv64i_or : ExecutorT := fun s g insn =>
  match insn with
  | .R _ rs2 rs1 _ rd _ _ =>
    .ok ({ s with x := updX s.x rd (s.x rs1 ||| s.x rs2) }, g)
  | _ => .err .internalError

/-- rv64i_and. -/
def rv64i_and : ExecutorT := fun s g insn =>
  match insn with
  | .R _ rs2 rs1 _ rd _ _ =>
    .ok ({ s with x := updX s.x rd (s.x rs1 &&& s.x rs2) }, g)
  | _ => .err .internalError

/-- rv64i_slt. -/
def rv64i_slt : ExecutorT := fun s g insn =>
  match insn with
  | .R _ rs2 rs1 _ rd _ _ =>
    .ok ({ s with x := updX s.x rd (if toI64 (s.x rs1) < toI64 (s.x rs2) then 1 else 0) }, g)
  | _ => .err .internalError

/-- rv64i_sltu. -/
def rv64i_sltu : ExecutorT := fun s g insn =>
  match insn with
  | .R _ rs2 rs1 _ rd _ _ =>
    .ok ({ s with x := updX s.x rd (if s.x rs1 < s.x rs2 then 1 else 0) }, g)
  | _ => .err .internalError

/-- rv64i_beq: on equality, pc = pc.wrapping_add(sign_extend!(imm, 12) as u64).
Note the source extends from 12 bits although imm_b is a 13-bit value. -/
def rv64i_beq : ExecutorT := fun s g insn =>
  match insn with
  | .B imm rs2 rs1 _ _ _ =>
    if s.x rs1 = s.x rs2 then
      .ok ({ s with pc := (s.pc + sxt64 imm 12) % U64 }, g)
    else .ok (s, g)
  | _ => .err .internalError

/-- rv64i_bne. -/
def rv64i_bne : ExecutorT := fun s g insn =>
  match insn with
  | .B imm rs2 rs1 _ _ _ =>
    if s.x rs1 ≠ s.x rs2 then
      .ok ({ s with pc := (s.pc + sxt64 imm 12) % U64 }, g)
    else .ok (s, g)
  | _ => .err .internalError

/-- rv64i_blt (signed compare). -/
def rv64i_blt : ExecutorT := fun s g insn =>
  match insn with
  | .B imm rs2 rs1 _ _ _ =>
    if toI64 (s.x rs1) < toI64 (s.x rs2) then
      .ok ({ s with pc := (s.pc + sxt64 imm 12) % U64 }, g)
    else .ok (s, g)
  | _ => .err .internalError

/-- rv64i_bge (signed compare). -/
def rv64i_bge : ExecutorT := fun s g insn =>
  match insn with
  | .B imm rs2 rs1 _ _ _ =>
    if toI64 (s.x rs2) ≤ toI64 (s.x rs1) then
      .ok ({ s with pc := (s.pc + sxt64 imm 12) % U64 }, g)
    else .ok (s, g)
  | _ => .err .internalError

/-- rv64i_bltu. -/
def rv64i_bltu : ExecutorT := fun s g insn =>
  match insn with
  | .B imm rs2 rs1 _ _ _ =>
    if s.x rs1 < s.x rs2 then
      .ok ({ s with pc := (s.pc + sxt64 imm 12) % U64 }, g)
    else .ok (s, g)
  | _ => .err .internalError

/-- rv64i_bgeu. -/
def rv64i_bgeu : ExecutorT := fun s g insn =>
  match insn with
  | .B imm rs2 rs1 _ _ _ =>
    if s.x rs2 ≤ s.x rs1 then
      .ok ({ s with pc := (s.pc + sxt64 imm 12) % U64 }, g)
    else .ok (s, g)
  | _ => .err .internalError

/-- rv64i_jal: target = pc + sign_extend!(imm, 21); x[rd] = pc + 4; pc = target. -/
def rv64i_jal : ExecutorT := fun s g insn =>
  match insn with
  | .J imm rd _ _ =>
    .ok ({ s with
      x := updX s.x rd ((s.pc + 4) % U64),
      pc := (s.pc + sxt64 imm 21) % U64 }, g)
  | _ => .err .internalError

/-- rv64i_jalr: target = ((x[rs1] as i64) + sign_extend!(imm, 12)) & !1,
read before the link value pc + 4 is written to x[rd]; then pc = target. -/
def rv64i_jalr : ExecutorT := fun s g insn =>
  match insn with
  | .I imm rs1 _ rd _ _ =>
    .ok ({ s with
      x := updX s.x rd ((s.pc + 4) % U64),
      pc := asU64 (toI64 (s.x rs1) + sign_extend imm 12) &&& (U64 - 2) }, g)
  | _ => .err .internalError

/-- rv64i_ecall: set the trap latch, leave pc alone. -/
def rv64i_ecall : ExecutorT := fun s g _ =>
  .ok ({ s with break_on := some BreakCause.ecall }, g)

/-- rv64i_ebreak: set the trap latch, leave pc alone. -/
def rv64i_ebreak : ExecutorT := fun s g _ =>
  .ok ({ s with break_on := some BreakCause.ebreak }, g)

/-- A decoder as the hart sees it: Decoder::decode(raw). -/
def DecoderT : Type := Nat → Outcome (Option (Instruction × ExecutorT))

/-- Rv64IDecoder::decode in rv64i.rs.  The SYSTEM opcode arm is
unimplemented!(), hence a panic. -/
def Rv64IDecoder.decode : DecoderT := fun raw =>
  let opcode := raw &&& 0x7f
  let rd := raw >>> 7 &&& 0x1f
  let funct3 := raw >>> 12 &&& 0x07
  let rs1 := raw >>> 15 &&& 0x1f
  let rs2 := raw >>> 20 &&& 0x1f
  let funct7 := raw >>> 25 &&& 0x7f
  match opcode with
  | 0x37 => .ok (some (.U (imm_U raw) rd opcode raw, rv64i_lui))
  | 0x17 => .ok (some (.U (imm_U raw) rd opcode raw, rv64i_auipc))
  | 0x03 =>
    match funct3 with
    | 0 => .ok (some (.I (imm_I raw) rs1 funct3 rd opcode raw, rv64i_lb))
    | 1 => .ok (some (.I (imm_I raw) rs1 funct3 rd opcode raw, rv64i_lh))
    | 2 => .ok (some (.I (imm_I raw) rs1 funct3 rd opcode raw, rv64i_lw))
    | 3 => .ok (some (.I (imm_I raw) rs1 funct3 rd opcode raw, rv64i_ld))
    | 4 => .ok (some (.I (imm_I raw) rs1 funct3 rd opcode raw, rv64i_lbu))
    | 5 => .ok (some (.I (imm_I raw) rs1 funct3 rd opcode raw, rv64i_lhu))
    | 6 => .ok (some (.I (imm_I raw) rs1 funct3 rd opcode raw, rv64i_lwu))
    | _ => .ok none
  | 0x23 =>
    match funct3 with
    | 0 => .ok (some (.S (imm_S raw) rs2 rs1 funct3 opcode raw, rv64i_sb))
    | 1 => .ok (some (.S (imm_S raw) rs2 rs1 funct3 opcode raw, rv64i_sh))
    | 2 => .ok (some (.S (imm_S raw) rs2 rs1 funct3 opcode raw, rv64i_sw))
    | 3 => .ok (some (.S (imm_S raw) rs2 rs1 funct3 opcode raw, rv64i_sd))
    | _ => .ok none
  | 0x13 =>
    match funct3 with
    | 0 => .ok (some (.I (imm_I raw) rs1 funct3 rd opcode raw, rv64i_addi))
    | 1 => .ok (some (.I (imm_I raw) rs1 funct3 rd opcode raw, rv64i_slli))
    | 2 => .ok (some (.I (imm_I raw) rs1 funct3 rd opcode raw, rv64i_slti))
    | 3 => .ok (some (.I (imm_I raw) rs1 funct3 rd opcode raw, rv64i_sltiu))
    | 4 => .ok (some (.I (imm_I raw) rs1 funct3 rd opcode raw, rv64i_xori))
    | 5 =>
      match funct7 with
      | 0 => .ok (some (.I (imm_I raw) rs1 funct3 rd opcode raw, rv64i_srli))
      | 0x20 => .ok (some (.I (imm_I raw) rs1 funct3 rd opcode raw, rv64i_srai))
      | _ => .ok none
    | 6 => .ok (some (.I (imm_I raw) rs1 funct3 rd opcode raw, rv64i_ori))
    | 7 => .ok (some (.I (imm_I raw) rs1 funct3 rd opcode raw, rv64i_andi))
    | _ => .ok none
  | 0x63 =>
    match funct3 with
    | 0 => .ok (some (.B (imm_B raw) rs2 rs1 funct3 opcode raw, rv64i_beq))
    | 1 => .ok (some (.B (imm_B raw) rs2 rs1 funct3 opcode raw, rv64i_bne))
    | 4 => .ok (some (.B (imm_B raw) rs2 rs1 funct3 opcode raw, rv64i_blt))
    | 5 => .ok (some (.B (imm_B raw) rs2 rs1 funct3 opcode raw, rv64i_bge))
    | 6 => .ok (some (.B (imm_B raw) rs2 rs1 funct3 opcode raw, rv64i_bltu))
    | 7 => .ok (some (.B (imm_B raw) rs2 rs1 funct3 opcode raw, rv64i_bgeu))
    | _ => .ok none
  | 0x6f => .ok (some (.J (imm_J raw) rd opcode raw, rv64i_jal))
  | 0x67 =>
    match funct3 with
    | 0 => .ok (some (.I (imm_I raw) rs1 funct3 rd opcode raw, rv64i_jalr))
    | _ => .ok none
  | 0x33 =>
    match funct3 with
    | 0 =>
      match funct7 with
      | 0 => .ok (some (.R funct7 rs2 rs1 funct3 rd opcode raw, rv64i_add))
      | 0x20 => .ok (some (.R funct7 rs2 rs1 funct3 rd opcode raw, rv64i_sub))
      | _ => .ok none
    | 1 => .ok (some (.R funct7 rs2 rs1 funct3 rd opcode raw, rv64i_sll))
    | 2 => .ok (some (.R funct7 rs2 rs1 funct3 rd opcode raw, rv64i_slt))
    | 3 => .ok (some (.R funct7 rs2 rs1 funct3 rd opcode raw, rv64i_sltu))
    | 4 => .ok (some (.R funct7 rs2 rs1 funct3 rd opcode raw, rv64i_xor))
    | 5 =>
      match funct7 with
      | 0 => .ok (some (.R funct7 rs2 rs1 funct3 rd opcode raw, rv64i_srl))
      | 0x20 => .ok (some (.R funct7 rs2 rs1 funct3 rd opcode raw, rv64i_sra))
      | _ => .ok none
    | 6 => .ok (some (.R funct7 rs2 rs1 funct3 rd opcode raw, rv64i_or))
    | 7 => .ok (some (.R funct7 rs2 rs1 funct3 rd opcode raw, rv64i_and))
    | _ => .ok none
  | 0x73 => .panic
  | _ => .ok none

/-- Hart::decode: try each registered decoder in order, first Some wins. -/
def hartDecode : List DecoderT → Nat → Outcome (Option (Instruction × ExecutorT))
  | [], _ => .ok none
  | d :: rest, raw =>
    match d raw with
    | .ok (some r) => .ok (some r)
    | .ok none => hartDecode rest raw
    | .err e => .err e
    | .panic => .panic

/-- The decoder list of a hart built with InsnSet::I only. -/
def rv64Decoders : List DecoderT := [Rv64IDecoder.decode]

/-- Hart::step in hart.rs: reset x[0] and the trap latch, check pc alignment,
fetch the 32-bit word through read_u32, decode, execute, apply the pc-update
rule, and report the latched break cause. -/
def Hart.step (decoders : List DecoderT) (s0 : State) (g : GuestMem) :
    Outcome (State × GuestMem × Option BreakCause) :=
  let s := { s0 with x := updX s0.x 0 0, break_on := none }
  let cur_pc := s.pc
  if cur_pc % 2 ≠ 0 then .err .internalError
  else
    match g.read_u32 s.pc with
    | .err e => .err e
    | .panic => .panic
    | .ok raw =>
      match hartDecode decoders raw with
      | .err e => .err e
      | .panic => .panic
      | .ok none => .err .unimplemented
      | .ok (some (insn, ex)) =>
        match ex s g insn with
        | .err e => .err e
        | .panic => .panic
        | .ok (s2, g2) =>
          let s3 := if cur_pc = s2.pc
            then { s2 with pc := (cur_pc + insn.step_size) % U64 }
            else s2
          match s3.break_on with
          | some cause => .ok (s3, g2, some cause)
          | none => .ok (s3, g2, none)

/-- Register r after a completed step (none when the step did not complete). -/
def stepX (o : Outcome (State × GuestMem × Option BreakCause)) (r : Nat) : Option Nat :=
  match o with
  | .ok (s, _, _) => some (s.x r)
  | _ => none

/-- pc after a completed step. -/
def stepPc (o : Outcome (State × GuestMem × Option BreakCause)) : Option Nat :=
  match o with
  | .ok (s, _, _) => some s.pc
  | _ => none

/-- Break cause reported by a completed step. -/
def stepCause (o : Outcome (State × GuestMem × Option BreakCause)) :
    Option (Option BreakCause) :=
  match o with
  | .ok (_, _, c) => some c
  | _ => none

/-- Whether an outcome is a normal value. -/
def Outcome.isOk {α : Type} : Outcome α → Bool
  | .ok _ => true
  | _ => false

/-- Extract the guest memory from an add_segment outcome (scenario plumbing). -/
def forceOk (o : Outcome GuestMem) : GuestMem :=
  match o with
  | .ok g => g
  | _ => GuestMem.new

/-- The first stored segment (scenario plumbing). -/
def segOf (g : GuestMem) : MemSegment :=
  g.segments.headD ⟨0, 1, 0, 0, 0, fun _ => 0, 0⟩

/-- The all-zero start state. -/
def st0 : State := ⟨0, fun _ => 0, none⟩

/-- Start state with pc = 0x1000. -/
def st1000 : State := ⟨0x1000, fun _ => 0, none⟩

/-- A READ segment at 0 holding the ecall word 0x00000073. -/
def memC1 : GuestMem :=
  forceOk (GuestMem.new.add_segment 0 0x1000 MF_READ (some [0x73, 0, 0, 0]))

/-- A READ segment at 0x1000 holding beq x0, x0 with B-immediate 0x800
(raw 0x000000E3, branch offset +2048). -/
def memC2 : GuestMem :=
  forceOk (GuestMem.new.add_segment 0x1000 0x1000 MF_READ (some [0xE3, 0, 0, 0]))

/-- A READ segment at 0 holding lui x1, 0xFFFFF (raw 0xFFFFF0B7). -/
def memC3a : GuestMem :=
  forceOk (GuestMem.new.add_segment 0 0x1000 MF_READ (some [0xB7, 0xF0, 0xFF, 0xFF]))

/-- A READ segment at 0 holding auipc x1, 0xFFFFF (raw 0xFFFFF097). -/
def memC3b : GuestMem :=
  forceOk (GuestMem.new.add_segment 0 0x1000 MF_READ (some [0x97, 0xF0, 0xFF, 0xFF]))

/-- A READ segment whose gaddr_start 0x1800 is not page-aligned: its
page-aligned range is [0x1000, 0x2000). -/
def memC4 : GuestMem :=
  forceOk (GuestMem.new.add_segment 0x1800 0x100 MF_READ none)

/-- An EXECUTE-only segment at 0x1000 holding the addi x1, x0, 1 word. -/
def memC5 : GuestMem :=
  forceOk (GuestMem.new.add_segment 0x1000 0x1000 MF_EXECUTE (some [0x93, 0x00, 0x10, 0x00]))

/-- A READ|WRITE segment [0x1000, 0x2000). -/
def memRW : GuestMem :=
  forceOk (GuestMem.new.add_segment 0x1000 0x1000 (MF_READ ||| MF_WRITE) none)

/-- A READ segment at 0 holding jal x0, 0 (raw 0x0000006F). -/
def memC8 : GuestMem :=
  forceOk (GuestMem.new.add_segment 0 0x1000 MF_READ (some [0x6F, 0, 0, 0]))

/-- A READ segment at 0 holding addi x1, x0, 1 (raw 0x00100093). -/
def memC8w : GuestMem :=
  forceOk (GuestMem.new.add_segment 0 0x1000 MF_READ (some [0x93, 0x00, 0x10, 0x00]))

/-! Helper lemmas: list plumbing. -/

theorem getIdx_mem {L : List MemSegment} {k : Nat} {t : MemSegment}
    (h : getIdx L k = some t) : t ∈ L := by
  induction L generalizing k with
  | nil => simp [getIdx] at h
  | cons s r ih =>
    cases k with
    | zero => simp [getIdx] at h; simp [h]
    | succ k => exact List.mem_cons_of_mem s (ih h)

theorem mem_getIdx {L : List MemSegment} {t : MemSegment} (h : t ∈ L) :
    ∃ k, getIdx L k = some t := by
  induction L with
  | nil => simp at h
  | cons s r ih =>
    rcases List.mem_cons.mp h with h1 | h2
    · exact ⟨0, by simp [getIdx, h1]⟩
    · obtain ⟨k, hk⟩ := ih h2
      exact ⟨k + 1, by simpa [getIdx] using hk⟩

theorem getIdx_withIdx {L : List MemSegment} {k : Nat} {t : MemSegment}
    (h : getIdx L k = some t) : ∀ n, (n + k, t) ∈ withIdx n L := by
  induction L generalizing k with
  | nil => simp [getIdx] at h
  | cons s r ih =>
    intro n
    cases k with
    | zero =>
      simp [getIdx] at h
      simp [withIdx, h]
    | succ k =>
      have := ih h (n + 1)
      simp only [withIdx, List.mem_cons]
      right
      have heq : n + 1 + k = n + (k + 1) := by omega
      rwa [heq] at this

theorem withIdx_getIdx {L : List MemSegment} {n i : Nat} {t : MemSegment}
    (h : (i, t) ∈ withIdx n L) : n ≤ i ∧ getIdx L (i - n) = some t := by
  induction L generalizing n with
  | nil => simp [withIdx] at h
  | cons s r ih =>
    simp only [withIdx, List.mem_cons] at h
    rcases h with h1 | h2
    · have hi : i = n ∧ t = s := by
        constructor
        · exact congrArg Prod.fst h1
        · exact congrArg Prod.snd h1
      obtain ⟨hin, hts⟩ := hi
      subst hin; subst hts
      simp [getIdx]
    · obtain ⟨hle, hget⟩ := ih h2
      refine ⟨by omega, ?_⟩
      have hik : i - n = (i - (n + 1)) + 1 := by omega
      rw [hik]
      simpa [getIdx] using hget

theorem setIdx_getIdx_self {L : List MemSegment} {i : Nat} {t u : MemSegment}
    (h : getIdx L i = some t) : getIdx (setIdx L i u) i = some u := by
  induction L generalizing i with
  | nil => simp [getIdx] at h
  | cons s r ih =>
    cases i with
    | zero => simp [getIdx, setIdx]
    | succ i => simpa [getIdx, setIdx] using ih h

theorem setIdx_getIdx_ne {L : List MemSegment} {i j : Nat} (u : MemSegment)
    (hne : j ≠ i) : getIdx (setIdx L i u) j = getIdx L j := by
  induction L generalizing i j with
  | nil => simp [setIdx]
  | cons s r ih =>
    cases i with
    | zero =>
      cases j with
      | zero => omega
      | succ j => simp [getIdx, setIdx]
    | succ i =>
      cases j with
      | zero => simp [getIdx, setIdx]
      | succ j => simpa [getIdx, setIdx] using ih (by omega)

theorem mem_setIdx {L : List MemSegment} {i : Nat} {u v : MemSegment}
    (h : v ∈ setIdx L i u) : v = u ∨ v ∈ L := by
  induction L generalizing i with
  | nil => simp [setIdx] at h
  | cons s r ih =>
    cases i with
    | zero =>
      rcases List.mem_cons.mp h with h1 | h2
      · exact Or.inl h1
      · exact Or.inr (List.mem_cons_of_mem s h2)
    | succ i =>
      rcases List.mem_cons.mp h with h1 | h2
      · exact Or.inr (by simp [h1])
      · rcases ih h2 with h3 | h4
        · exact Or.inl h3
        · exact Or.inr (List.mem_cons_of_mem s h4)

theorem setIdx_self {L : List MemSegment} {i : Nat} {t : MemSegment}
    (h : getIdx L i = some t) : setIdx L i t = L := by
  induction L generalizing i with
  | nil => simp [setIdx]
  | cons s r ih =>
    cases i with
    | zero => simp [getIdx] at h; simp [setIdx, h]
    | succ i => simp [getIdx] at h; simp [setIdx, ih h]

theorem setIdx_setIdx {L : List MemSegment} {i : Nat} {u w : MemSegment} :
    setIdx (setIdx L i u) i w = setIdx L i w := by
  induction L generalizing i with
  | nil => simp [setIdx]
  | cons s r ih =>
    cases i with
    | zero => simp [setIdx]
    | succ i => simp [setIdx, ih]

theorem pairwise_getIdx {L : List MemSegment} {i j : Nat} {t u : MemSegment}
    (hpw : L.Pairwise segDisj) (hij : i < j)
    (hi : getIdx L i = some t) (hj : getIdx L j = some u) : segDisj t u := by
  induction L generalizing i j with
  | nil => simp [getIdx] at hi
  | cons s r ih =>
    rcases List.pairwise_cons.mp hpw with ⟨hhead, htail⟩
    cases i with
    | zero =>
      simp [getIdx] at hi
      cases j with
      | zero => omega
      | succ j =>
        subst hi
        exact hhead u (getIdx_mem hj)
    | succ i =>
      cases j with
      | zero => omega
      | succ j => exact ih htail (by omega) hi hj

/-! Helper lemmas: the decompose loop. -/

theorem decompGo_find {a : Nat} {acc : MemAccess} {L : List (Nat × MemSegment)}
    {i : Nat} {t : MemSegment}
    (hmem : (i, t) ∈ L)
    (hcand : t.m_gaddr_start ≤ a ∧ t.contains a)
    (huniq : ∀ p ∈ L, p.2.m_gaddr_start ≤ a ∧ p.2.contains a → p = (i, t)) :
    decompGo a acc L =
      if t.allows acc then .ok (i, t) else .err .permissionDenied := by
  induction L with
  | nil => simp at hmem
  | cons p rest ih =>
    obtain ⟨j, u⟩ := p
    rcases List.mem_cons.mp hmem with h1 | h2
    · have hju : j = i ∧ u = t := by
        constructor
        · exact (congrArg Prod.fst h1).symm
        · exact (congrArg Prod.snd h1).symm
      obtain ⟨hj, hu⟩ := hju
      subst hj; subst hu
      simp [decompGo, hcand]
    · by_cases hc : u.m_gaddr_start ≤ a ∧ u.contains a
      · have := huniq (j, u) (List.mem_cons_self _ _) hc
        have hju : j = i ∧ u = t := by
          constructor
          · exact congrArg Prod.fst this
          · exact congrArg Prod.snd this
        obtain ⟨hj, hu⟩ := hju
        subst hj; subst hu
        simp [decompGo, hcand]
      · rw [show decompGo a acc ((j, u) :: rest) = decompGo a acc rest by
          simp [decompGo, hc]]
        exact ih h2 (fun p hp => huniq p (List.mem_cons_of_mem _ hp))

theorem decompGo_none {a : Nat} {acc : MemAccess} {L : List (Nat × MemSegment)}
    (h : ∀ p ∈ L, ¬(p.2.m_gaddr_start ≤ a ∧ p.2.contains a)) :
    decompGo a acc L = .err (.memAccessFault acc a) := by
  induction L with
  | nil => simp [decompGo]
  | cons p rest ih =>
    obtain ⟨j, u⟩ := p
    have hc := h (j, u) (List.mem_cons_self _ _)
    rw [show decompGo a acc ((j, u) :: rest) = decompGo a acc rest by
      simp [decompGo, hc]]
    exact ih (fun p hp => h p (List.mem_cons_of_mem _ hp))

theorem decompGo_ok_inv {a : Nat} {acc : MemAccess} {L : List (Nat × MemSegment)}
    {i : Nat} {t : MemSegment} (h : decompGo a acc L = .ok (i, t)) :
    (i, t) ∈ L ∧ (t.m_gaddr_start ≤ a ∧ t.contains a) ∧ t.allows acc := by
  induction L with
  | nil => simp [decompGo] at h
  | cons p rest ih =>
    obtain ⟨j, u⟩ := p
    by_cases hc : u.m_gaddr_start ≤ a ∧ u.contains a
    · by_cases hal : u.allows acc
      · simp [decompGo, hc, hal] at h
        obtain ⟨hj, hu⟩ := h
        subst hj; subst hu
        exact ⟨List.mem_cons_self _ _, hc, hal⟩
      · simp [decompGo, hc, hal] at h
    · rw [show decompGo a acc ((j, u) :: rest) = decompGo a acc rest by
        simp [decompGo, hc]] at h
      obtain ⟨h1, h2, h3⟩ := ih h
      exact ⟨List.mem_cons_of_mem _ h1, h2, h3⟩

theorem decompGo_ne_panic {a : Nat} {acc : MemAccess} {L : List (Nat × MemSegment)} :
    decompGo a acc L ≠ .panic := by
  induction L with
  | nil => simp [decompGo]
  | cons p rest ih =>
    obtain ⟨j, u⟩ := p
    by_cases hc : u.m_gaddr_start ≤ a ∧ u.contains a
    · by_cases hal : u.allows acc <;> simp [decompGo, hc, hal]
    · rw [show decompGo a acc ((j, u) :: rest) = decompGo a acc rest by
        simp [decompGo, hc]]
      exact ih

/-! Helper lemmas: page arithmetic. -/

theorem round_down64_le (v : Nat) : round_down64 v ≤ v := by
  simp only [round_down64, PAGE]; omega

theorem round_down64_aligned (v : Nat) : round_down64 v % PAGE = 0 := by
  simp only [round_down64, PAGE]; omega

theorem round_up64_aligned (v : Nat) : round_up64 v % PAGE = 0 := by
  simp only [round_up64, PAGE, U64]; omega

theorem round_up64_lt (v : Nat) : round_up64 v < U64 := by
  simp only [round_up64, PAGE, U64]; omega

theorem round_up64_cases (v : Nat) (hv : v < U64) :
    round_up64 v = 0 ∨ (v ≤ round_up64 v ∧ round_up64 v < v + PAGE) := by
  simp only [round_up64, PAGE, U64] at *
  omega

/-- A segment whose well-formedness data is known has its page-aligned range
around its guest range (or an empty page range due to round_up wrap). -/
theorem MemSegment.WF.bounds {t : MemSegment} (h : t.WF) :
    t.m_gaddr_start ≤ t.gaddr_start ∧
    (t.m_gaddr_end = 0 ∨
      (t.gaddr_end ≤ t.m_gaddr_end ∧ t.m_gaddr_end < t.gaddr_end + PAGE)) := by
  obtain ⟨h1, h2, h3, h4, h5⟩ := h
  constructor
  · rw [h3]; exact round_down64_le _
  · rw [h4]
    rcases round_up64_cases t.gaddr_end h2 with h6 | h6
    · exact Or.inl h6
    · exact Or.inr h6

/-- Core overlap fact: if a page-aligned range [a, b) meets the page-aligned
range of a well-formed segment, the preflight condition of add_segment fires
for that segment. -/
theorem overlapCond_of_intersect {a b : Nat} {t : MemSegment} (htwf : t.WF)
    (haP : a % PAGE = 0) (hbP : b % PAGE = 0)
    (hx : ∃ x, a ≤ x ∧ x < b ∧ t.m_gaddr_start ≤ x ∧ x < t.m_gaddr_end) :
    overlapCond a b t.gaddr_start t.gaddr_end := by
  obtain ⟨x, hax, hxb, hmsx, hxme⟩ := hx
  obtain ⟨h1, h2, h3, h4, h5⟩ := htwf
  have hms : t.m_gaddr_start = t.gaddr_start / PAGE * PAGE := by
    rw [h3]; rfl
  have hme : t.m_gaddr_end = 0 ∨
      (t.gaddr_end ≤ t.m_gaddr_end ∧ t.m_gaddr_end < t.gaddr_end + PAGE ∧
        t.m_gaddr_end % PAGE = 0) := by
    rcases round_up64_cases t.gaddr_end h2 with h6 | h6
    · exact Or.inl (by rw [h4]; exact h6)
    · refine Or.inr ⟨by rw [h4]; exact h6.1, by rw [h4]; exact h6.2, ?_⟩
      rw [h4]; exact round_up64_aligned _
  rcases hme with hme0 | ⟨hme1, hme2, hme3⟩
  · omega
  · -- a < gaddr_end and b > gaddr_start, which forces one of the four branches
    have hae : a < t.gaddr_end := by
      simp only [PAGE] at *
      omega
    have hbs : b > t.gaddr_start := by
      simp only [PAGE] at *
      omega
    unfold overlapCond
    omega

/-- From the failure of the preflight condition, the page-aligned ranges are
disjoint (for a well-formed stored segment and a page-aligned candidate
range that is empty only when its end wrapped to 0). -/
theorem segDisj_of_not_overlapCond {a b : Nat} {t u : MemSegment} (htwf : t.WF)
    (hua : u.m_gaddr_start = a) (hub : u.m_gaddr_end = b)
    (haP : a % PAGE = 0) (hbP : b % PAGE = 0)
    (hab : b = 0 ∨ a < b)
    (hno : ¬ overlapCond a b t.gaddr_start t.gaddr_end) : segDisj u t := by
  rcases hab with hb0 | hab
  · unfold segDisj
    rw [hub, hb0]
    exact Or.inl (Nat.zero_le _)
  by_contra hc
  unfold segDisj at hc
  push_neg at hc
  obtain ⟨hc1, hc2⟩ := hc
  rw [hub] at hc1
  rw [hua] at hc2
  obtain ⟨h1, h2, h3, h4, h5⟩ := htwf
  have hmsgs : t.m_gaddr_start ≤ t.gaddr_start := by
    rw [h3]; exact round_down64_le _
  have hme : t.m_gaddr_end = 0 ∨ t.gaddr_end ≤ t.m_gaddr_end := by
    rcases round_up64_cases t.gaddr_end h2 with h6 | h6
    · exact Or.inl (by rw [h4]; exact h6)
    · exact Or.inr (by rw [h4]; exact h6.1)
  rcases hme with hme0 | hme1
  · rw [hme0] at hc2; omega
  · have hx : ∃ x, a ≤ x ∧ x < b ∧ t.m_gaddr_start ≤ x ∧ x < t.m_gaddr_end := by
      rcases le_or_lt a t.m_gaddr_start with h7 | h7
      · exact ⟨t.m_gaddr_start, h7, by omega, Nat.le_refl _, by omega⟩
      · exact ⟨a, Nat.le_refl _, by omega, by omega, by omega⟩
    exact hno (overlapCond_of_intersect ⟨h1, h2, h3, h4, h5⟩ haP hbP hx)

/-! Helper lemmas: the overlap preflight loop and insertion. -/

theorem overlapAny_eq_true {L : List MemSegment} {a b : Nat} {t : MemSegment}
    (ht : t ∈ L) (hc : overlapCond a b t.gaddr_start t.gaddr_end) :
    overlapAny L a b = true := by
  induction L with
  | nil => simp at ht
  | cons s r ih =>
    rcases List.mem_cons.mp ht with h1 | h2
    · subst h1; simp [overlapAny, hc]
    · by_cases hcs : overlapCond a b s.gaddr_start s.gaddr_end
      · simp [overlapAny, hcs]
      · simpa [overlapAny, hcs] using ih h2

theorem overlapAny_eq_false {L : List MemSegment} {a b : Nat}
    (h : overlapAny L a b = false) :
    ∀ t ∈ L, ¬ overlapCond a b t.gaddr_start t.gaddr_end := by
  induction L with
  | nil => simp
  | cons s r ih =>
    intro t ht
    by_cases hcs : overlapCond a b s.gaddr_start s.gaddr_end
    · simp [overlapAny, hcs] at h
    · simp only [overlapAny, hcs] at h
      rcases List.mem_cons.mp ht with h1 | h2
      · subst h1; exact hcs
      · simp at h
        exact ih h t h2

theorem mem_insertSorted {L : List MemSegment} {s u : MemSegment}
    (h : u ∈ insertSorted L s) : u = s ∨ u ∈ L := by
  induction L with
  | nil => simp [insertSorted] at h; exact Or.inl h
  | cons t r ih =>
    by_cases h1 : s.m_gaddr_start < t.m_gaddr_start
    · simp [insertSorted, h1] at h
      rcases h with h | h | h
      · exact Or.inl h
      · exact Or.inr (by simp [h])
      · exact Or.inr (List.mem_cons_of_mem _ h)
    · by_cases h2 : s.m_gaddr_start = t.m_gaddr_start
      · simp [insertSorted, h1, h2] at h
        rcases h with h | h
        · exact Or.inl h
        · exact Or.inr (List.mem_cons_of_mem _ h)
      · simp only [insertSorted, h1, h2, if_false] at h
        rcases List.mem_cons.mp h with h3 | h4
        · exact Or.inr (by simp [h3])
        · rcases ih h4 with h5 | h6
          · exact Or.inl h5
          · exact Or.inr (List.mem_cons_of_mem _ h6)

theorem segDisj_symm {t u : MemSegment} (h : segDisj t u) : segDisj u t := by
  unfold segDisj at *
  omega

theorem pairwise_insertSorted {L : List MemSegment} {s : MemSegment}
    (hpw : L.Pairwise segDisj) (hdisj : ∀ t ∈ L, segDisj s t) :
    (insertSorted L s).Pairwise segDisj := by
  induction L with
  | nil => simp [insertSorted, hpw]
  | cons t r ih =>
    rcases List.pairwise_cons.mp hpw with ⟨hhead, htail⟩
    by_cases h1 : s.m_gaddr_start < t.m_gaddr_start
    · simp only [insertSorted, h1, if_true]
      refine List.pairwise_cons.mpr ⟨?_, hpw⟩
      intro u hu
      exact hdisj u hu
    · by_cases h2 : s.m_gaddr_start = t.m_gaddr_start
      · rw [show insertSorted (t :: r) s = s :: r by simp [insertSorted, h1, h2]]
        refine List.pairwise_cons.mpr ⟨?_, htail⟩
        intro u hu
        exact hdisj u (List.mem_cons_of_mem _ hu)
      · rw [show insertSorted (t :: r) s = t :: insertSorted r s by
          simp [insertSorted, h1, h2]]
        refine List.pairwise_cons.mpr ⟨?_, ih htail
          (fun u hu => hdisj u (List.mem_cons_of_mem _ hu))⟩
        intro u hu
        rcases mem_insertSorted hu with h3 | h4
        · subst h3
          exact segDisj_symm (hdisj t (List.mem_cons_self _ _))
        · exact hhead u h4

/-! Helper lemmas: decompose and byte access under the table invariant. -/

theorem candidate_in_m_range {t : MemSegment} {a : Nat}
    (h : t.m_gaddr_start ≤ a ∧ t.contains a) :
    t.m_gaddr_start ≤ a ∧ a < t.m_gaddr_end :=
  ⟨h.1, h.2.2⟩

theorem decompose_eq {g : GuestMem} {a : Nat} (acc : MemAccess) {i : Nat}
    {t : MemSegment}
    (hwfAll : ∀ u ∈ g.segments, u.WF) (hpw : g.segments.Pairwise segDisj)
    (hget : getIdx g.segments i = some t) (hc : t.contains a) :
    g.decompose a acc =
      if t.allows acc then .ok (i, t) else .err .permissionDenied := by
  have htwf := hwfAll t (getIdx_mem hget)
  have hms : t.m_gaddr_start ≤ a := by
    have := htwf.bounds.1
    exact le_trans this hc.1
  have hcand : t.m_gaddr_start ≤ a ∧ t.contains a := ⟨hms, hc⟩
  unfold GuestMem.decompose
  apply decompGo_find (List.mem_reverse.mpr (by simpa using getIdx_withIdx hget 0)) hcand
  intro p hp hpc
  obtain ⟨j, u⟩ := p
  have hmem := List.mem_reverse.mp hp
  obtain ⟨_, hju⟩ := withIdx_getIdx hmem
  simp at hju
  have hu1 := candidate_in_m_range hpc
  simp at hu1
  have ht1 := candidate_in_m_range hcand
  rcases Nat.lt_trichotomy j i with hlt | heq | hgt
  · have := pairwise_getIdx hpw hlt hju hget
    unfold segDisj at this
    omega
  · subst heq
    rw [hget] at hju
    simp at hju
    simp [hju]
  · have := pairwise_getIdx hpw hgt hget hju
    unfold segDisj at this
    omega

theorem read_u8_eq {g : GuestMem} {a i : Nat} {t : MemSegment}
    (hwfAll : ∀ u ∈ g.segments, u.WF) (hpw : g.segments.Pairwise segDisj)
    (hget : getIdx g.segments i = some t) (hc : t.contains a)
    (hr : t.allows .read) :
    g.read_u8 a = .ok (t.host (a - t.m_gaddr_start)) := by
  unfold GuestMem.read_u8
  rw [decompose_eq .read hwfAll hpw hget hc]
  have htwf := hwfAll t (getIdx_mem hget)
  have hms : t.m_gaddr_start ≤ a := le_trans htwf.bounds.1 hc.1
  have hlen : a - t.m_gaddr_start < t.host_len := by
    have h5 := htwf.2.2.2.2
    have := hc.2
    omega
  simp [hr, hlen, Nat.not_lt.mpr hms]

theorem read_u8_fault {g : GuestMem} {a : Nat}
    (hnone : ∀ u ∈ g.segments, ¬(u.m_gaddr_start ≤ a ∧ a < u.m_gaddr_end)) :
    g.read_u8 a = .err (.memAccessFault .read a) := by
  unfold GuestMem.read_u8 GuestMem.decompose
  rw [decompGo_none]
  intro p hp hcand
  have hmem := List.mem_reverse.mp hp
  obtain ⟨_, hget⟩ := withIdx_getIdx hmem
  exact hnone p.2 (getIdx_mem hget) (candidate_in_m_range hcand)

/-- The updated segment written back by write_u8. -/
def updSeg (t : MemSegment) (off v : Nat) : MemSegment :=
  { t with host := fun j => if j = off then v else t.host j }

theorem updSeg_wf {t : MemSegment} (off v : Nat) (h : t.WF) : (updSeg t off v).WF := h

theorem write_u8_eq {g : GuestMem} {a i : Nat} {t : MemSegment} (v : Nat)
    (hwfAll : ∀ u ∈ g.segments, u.WF) (hpw : g.segments.Pairwise segDisj)
    (hget : getIdx g.segments i = some t) (hc : t.contains a)
    (hw : t.allows .write) :
    g.write_u8 a v = .ok ⟨setIdx g.segments i (updSeg t (a - t.m_gaddr_start) v)⟩ := by
  unfold GuestMem.write_u8
  rw [decompose_eq .write hwfAll hpw hget hc]
  have htwf := hwfAll t (getIdx_mem hget)
  have hms : t.m_gaddr_start ≤ a := le_trans htwf.bounds.1 hc.1
  have hlen : a - t.m_gaddr_start < t.host_len := by
    have h5 := htwf.2.2.2.2
    have := hc.2
    omega
  simp [hw, hlen, Nat.not_lt.mpr hms, updSeg]

theorem pairwise_setIdx {L : List MemSegment} {i : Nat} {t u : MemSegment}
    (hget : getIdx L i = some t)
    (hms : u.m_gaddr_start = t.m_gaddr_start) (hme : u.m_gaddr_end = t.m_gaddr_end)
    (hpw : L.Pairwise segDisj) : (setIdx L i u).Pairwise segDisj := by
  induction L generalizing i with
  | nil => simp [setIdx]
  | cons s r ih =>
    rcases List.pairwise_cons.mp hpw with ⟨hhead, htail⟩
    cases i with
    | zero =>
      simp [getIdx] at hget
      rw [show setIdx (s :: r) 0 u = u :: r from rfl]
      refine List.pairwise_cons.mpr ⟨?_, htail⟩
      intro w hw
      have hsw := hhead w hw
      rw [hget] at hsw
      unfold segDisj at *
      omega
    | succ i =>
      simp only [getIdx] at hget
      rw [show setIdx (s :: r) (i + 1) u = s :: setIdx r i u from rfl]
      refine List.pairwise_cons.mpr ⟨?_, ih hget htail⟩
      intro w hw
      rcases mem_setIdx hw with h1 | h2
      · subst h1
        have := hhead t (getIdx_mem hget)
        unfold segDisj at *
        omega
      · exact hhead w h2

theorem wfAll_setIdx {L : List MemSegment} {i : Nat} {u : MemSegment}
    (hwfAll : ∀ w ∈ L, w.WF) (hu : u.WF) :
    ∀ w ∈ setIdx L i u, w.WF := by
  intro w hw
  rcases mem_setIdx hw with h1 | h2
  · subst h1; exact hu
  · exact hwfAll w h2

/-! Helper lemmas: add_segment. -/

theorem add_segment_wf {g : GuestMem} {gs len flags : Nat}
    {data : Option (List Nat)} {g2 : GuestMem}
    (hwf : g.WF) (hok : g.add_segment gs len flags data = .ok g2) : g2.WF := by
  obtain ⟨hwfAll, hpw⟩ := hwf
  unfold GuestMem.add_segment at hok
  by_cases hlen : len = 0
  · simp [hlen] at hok
  simp only [hlen, if_false] at hok
  by_cases hov : overlapAny g.segments (round_down64 gs) (round_up64 ((gs + len) % U64)) = true
  · simp [hov] at hok
  simp only [hov] at hok
  rw [if_neg (by simp [hov])] at hok
  by_cases hge : gs < (gs + len) % U64
  · simp only [hge, if_true] at hok
    have hnof := overlapAny_eq_false (Bool.eq_false_iff.mpr hov)
    -- the inserted segment, identical in both init_data branches up to host data
    have hmain : ∀ host : Nat → Nat,
        GuestMem.WF ⟨insertSorted g.segments
          ⟨gs, (gs + len) % U64, round_down64 gs, round_up64 ((gs + len) % U64),
            round_up64 ((gs + len) % U64) - round_down64 gs, host, flags⟩⟩ := by
      intro host
      set nseg : MemSegment :=
        ⟨gs, (gs + len) % U64, round_down64 gs, round_up64 ((gs + len) % U64),
          round_up64 ((gs + len) % U64) - round_down64 gs, host, flags⟩ with hnseg
      have hnwf : nseg.WF := by
        refine ⟨hge, ?_, rfl, rfl, rfl⟩
        have : U64 > 0 := by simp [U64]
        exact Nat.mod_lt _ this
      have hdisj : ∀ t ∈ g.segments, segDisj nseg t := by
        intro t ht
        refine segDisj_of_not_overlapCond (hwfAll t ht) rfl rfl
          (round_down64_aligned _) (round_up64_aligned _) ?_ (hnof t ht)
        -- the candidate range is empty only by a round_up wrap to 0
        have hgsle : round_down64 gs ≤ gs := round_down64_le gs
        have hab : round_up64 ((gs + len) % U64) = 0 ∨
            round_down64 gs < round_up64 ((gs + len) % U64) := by
          rcases round_up64_cases ((gs + len) % U64) (Nat.mod_lt _ (by simp [U64]))
            with h6 | h6
          · exact Or.inl h6
          · right
            omega
        exact hab
      constructor
      · intro t ht
        rcases mem_insertSorted ht with h1 | h2
        · subst h1; exact hnwf
        · exact hwfAll t h2
      · exact pairwise_insertSorted hpw hdisj
    cases data with
    | none =>
      simp only at hok
      rcases Outcome.ok.inj hok with h
      rw [show g2 = ⟨insertSorted g.segments
        ⟨gs, (gs + len) % U64, round_down64 gs, round_up64 ((gs + len) % U64),
          round_up64 ((gs + len) % U64) - round_down64 gs, fun _ => 0, flags⟩⟩
        from h.symm]
      exact hmain _
    | some d =>
      simp only at hok
      by_cases hd : d.length > len
      · simp [hd] at hok
      simp only [hd, if_false] at hok
      rcases Outcome.ok.inj hok with h
      rw [show g2 = ⟨insertSorted g.segments
        ⟨gs, (gs + len) % U64, round_down64 gs, round_up64 ((gs + len) % U64),
          round_up64 ((gs + len) % U64) - round_down64 gs,
          segInit (gs - round_down64 gs) d, flags⟩⟩ from h.symm]
      exact hmain _
  · simp [hge] at hok

theorem add_segment_overlap_err {g : GuestMem} {gs len flags : Nat}
    {data : Option (List Nat)}
    (hwf : g.WF) (hlen : len ≠ 0)
    (hint : ∃ t ∈ g.segments, ∃ x,
      round_down64 gs ≤ x ∧ x < round_up64 ((gs + len) % U64) ∧
      t.m_gaddr_start ≤ x ∧ x < t.m_gaddr_end) :
    g.add_segment gs len flags data = .err .segmentOverlap := by
  obtain ⟨t, ht, hx⟩ := hint
  have hcond := overlapCond_of_intersect (hwf.1 t ht)
    (round_down64_aligned gs) (round_up64_aligned ((gs + len) % U64)) hx
  unfold GuestMem.add_segment
  simp only [hlen, if_false]
  rw [if_pos (overlapAny_eq_true ht hcond)]

/-! Helper lemmas: absence of panics in the byte accessors. -/

theorem decompose_ok_props {g : GuestMem} {a : Nat} {acc : MemAccess} {i : Nat}
    {t : MemSegment} (h : g.decompose a acc = .ok (i, t)) :
    getIdx g.segments i = some t ∧ t.m_gaddr_start ≤ a ∧ a < t.m_gaddr_end ∧
      t.allows acc := by
  unfold GuestMem.decompose at h
  obtain ⟨hmem, hcand, hal⟩ := decompGo_ok_inv h
  obtain ⟨_, hget⟩ := withIdx_getIdx (List.mem_reverse.mp hmem)
  simp at hget
  exact ⟨hget, hcand.1, hcand.2.2, hal⟩

theorem read_u8_ne_panic {g : GuestMem} {a : Nat}
    (hwfAll : ∀ u ∈ g.segments, u.WF) : g.read_u8 a ≠ .panic := by
  unfold GuestMem.read_u8
  rcases h : g.decompose a .read with v | e | _
  · obtain ⟨i, t⟩ := v
    obtain ⟨hget, hms, hme, _⟩ := decompose_ok_props h
    have htwf := hwfAll t (getIdx_mem hget)
    have h5 := htwf.2.2.2.2
    have hlen : a - t.m_gaddr_start < t.host_len := by omega
    simp [Nat.not_lt.mpr hms, hlen]
  · simp
  · exact absurd h decompGo_ne_panic

theorem write_u8_ne_panic {g : GuestMem} {a v : Nat}
    (hwfAll : ∀ u ∈ g.segments, u.WF) : g.write_u8 a v ≠ .panic := by
  unfold GuestMem.write_u8
  rcases h : g.decompose a .write with w | e | _
  · obtain ⟨i, t⟩ := w
    obtain ⟨hget, hms, hme, _⟩ := decompose_ok_props h
    have htwf := hwfAll t (getIdx_mem hget)
    have h5 := htwf.2.2.2.2
    have hlen : a - t.m_gaddr_start < t.host_len := by omega
    simp [Nat.not_lt.mpr hms, hlen]
  · simp
  · exact absurd h decompGo_ne_panic

theorem write_u8_ok_wf {g : GuestMem} {a v : Nat} {g2 : GuestMem}
    (hwf : g.WF) (hok : g.write_u8 a v = .ok g2) : g2.WF := by
  unfold GuestMem.write_u8 at hok
  rcases h : g.decompose a .write with w | e | _ <;> rw [h] at hok
  · obtain ⟨i, t⟩ := w
    obtain ⟨hget, hms, hme, _⟩ := decompose_ok_props h
    have htwf := hwf.1 t (getIdx_mem hget)
    have h5 := htwf.2.2.2.2
    have hlen : a - t.m_gaddr_start < t.host_len := by omega
    have hok2 : (if a < t.m_gaddr_start then (Outcome.panic : Outcome GuestMem)
        else if a - t.m_gaddr_start < t.host_len then
          .ok ⟨setIdx g.segments i (updSeg t (a - t.m_gaddr_start) v)⟩
        else .panic) = .ok g2 := hok
    rw [if_neg (Nat.not_lt.mpr hms), if_pos hlen] at hok2
    rcases Outcome.ok.inj hok2 with hg2
    rw [show g2 = ⟨setIdx g.segments i (updSeg t (a - t.m_gaddr_start) v)⟩ from hg2.symm]
    constructor
    · exact wfAll_setIdx hwf.1 (updSeg_wf _ v htwf)
    · exact pairwise_setIdx hget rfl rfl hwf.2
  · simp at hok
  · simp at hok

theorem read_u16_ne_panic {g : GuestMem} {a : Nat}
    (hwfAll : ∀ u ∈ g.segments, u.WF) : g.read_u16 a ≠ .panic := by
  unfold GuestMem.read_u16
  rcases h1 : g.read_u8 a with b | e | _
  · rcases h2 : g.read_u8 ((a + 1) % U64) with b2 | e2 | _
    · simp
    · simp
    · exact absurd h2 (read_u8_ne_panic hwfAll)
  · simp
  · exact absurd h1 (read_u8_ne_panic hwfAll)

theorem read_u32_ne_panic {g : GuestMem} {a : Nat}
    (hwfAll : ∀ u ∈ g.segments, u.WF) : g.read_u32 a ≠ .panic := by
  unfold GuestMem.read_u32
  rcases h1 : g.read_u8 a with b | e | _
  · rcases h2 : g.read_u8 ((a + 1) % U64) with b2 | e2 | _
    · rcases h3 : g.read_u8 ((a + 2) % U64) with b3 | e3 | _
      · rcases h4 : g.read_u8 ((a + 3) % U64) with b4 | e4 | _
        · simp
        · simp
        · exact absurd h4 (read_u8_ne_panic hwfAll)
      · simp
      · exact absurd h3 (read_u8_ne_panic hwfAll)
    · simp
    · exact absurd h2 (read_u8_ne_panic hwfAll)
  · simp
  · exact absurd h1 (read_u8_ne_panic hwfAll)

theorem read_le_ne_panic {g : GuestMem} {a : Nat} (k : Nat)
    (hwfAll : ∀ u ∈ g.segments, u.WF) : read_le g a k ≠ .panic := by
  induction k with
  | zero => simp [read_le]
  | succ k ih =>
    unfold read_le
    rcases h1 : read_le g a k with acc | e | _
    · rcases h2 : g.read_u8 ((a + k) % U64) with b | e2 | _
      · simp
      · simp
      · exact absurd h2 (read_u8_ne_panic hwfAll)
    · simp
    · exact absurd h1 ih

theorem read_u64_ne_panic {g : GuestMem} {a : Nat}
    (hwfAll : ∀ u ∈ g.segments, u.WF) : g.read_u64 a ≠ .panic :=
  read_le_ne_panic 8 hwfAll

theorem write_u16_ne_panic {g : GuestMem} {a v : Nat}
    (hwf : g.WF) : g.write_u16 a v ≠ .panic := by
  unfold GuestMem.write_u16
  rcases h1 : g.write_u8 a (v &&& 0xFF) with g1 | e | _
  · rcases h2 : g1.write_u8 ((a + 1) % U64) (v >>> 8 % 256) with g2 | e2 | _
    · simp [h2]
    · simp [h2]
    · exact absurd h2 (write_u8_ne_panic (write_u8_ok_wf hwf h1).1)
  · simp
  · exact absurd h1 (write_u8_ne_panic hwf.1)

theorem write_u32_ne_panic {g : GuestMem} {a v : Nat}
    (hwf : g.WF) : g.write_u32 a v ≠ .panic := by
  unfold GuestMem.write_u32
  rcases h1 : g.write_u8 a (v &&& 0xFF) with g1 | e | _
  · have hwf1 := write_u8_ok_wf hwf h1
    rcases h2 : g1.write_u8 ((a + 1) % U64) (v >>> 8 &&& 0xFF) with g2 | e2 | _
    · have hwf2 := write_u8_ok_wf hwf1 h2
      rcases h3 : g2.write_u8 ((a + 2) % U64) (v >>> 16 &&& 0xFF) with g3 | e3 | _
      · have hwf3 := write_u8_ok_wf hwf2 h3
        rcases h4 : g3.write_u8 ((a + 3) % U64) (v >>> 24 &&& 0xFF) with g4 | e4 | _
        · simp [h2, h3, h4]
        · simp [h2, h3, h4]
        · exact absurd h4 (write_u8_ne_panic hwf3.1)
      · simp [h2, h3]
      · exact absurd h3 (write_u8_ne_panic hwf2.1)
    · simp [h2]
    · exact absurd h2 (write_u8_ne_panic hwf1.1)
  · simp
  · exact absurd h1 (write_u8_ne_panic hwf.1)

theorem write_le_ne_panic {g : GuestMem} {a v : Nat} (k : Nat)
    (hwf : g.WF) : write_le g a v k ≠ .panic ∧
      (∀ g2, write_le g a v k = .ok g2 → g2.WF) := by
  induction k with
  | zero =>
    refine ⟨by simp [write_le], ?_⟩
    intro g2 h
    simp [write_le] at h
    rwa [show g2 = g from h.symm]
  | succ k ih =>
    unfold write_le
    rcases h1 : write_le g a v k with gk | e | _
    · have hwfk := ih.2 gk h1
      rcases h2 : gk.write_u8 ((a + k) % U64) (v / 2 ^ (8 * k) % 256) with g2 | e2 | _
      · refine ⟨by simp [h2], ?_⟩
        intro g3 h3
        simp [h2] at h3
        rw [show g3 = g2 from h3.symm]
        exact write_u8_ok_wf hwfk h2
      · simp [h2]
      · exact absurd h2 (write_u8_ne_panic hwfk.1)
    · simp
    · exact absurd h1 ih.1

theorem write_u64_ne_panic {g : GuestMem} {a v : Nat}
    (hwf : g.WF) : g.write_u64 a v ≠ .panic :=
  (write_le_ne_panic 8 hwf).1

/-! Helper lemmas: little-endian recomposition arithmetic. -/

theorem and_255_eq_mod (v : Nat) : v &&& 0xFF = v % 256 := by
  have h := Nat.and_pow_two_sub_one_eq_mod v 8
  norm_num at h
  exact h

theorem recompose16 (v : Nat) (h : v < 2 ^ 16) :
    ((v >>> 8 % 256) <<< 8) ||| (v &&& 0xFF) = v := by
  rw [and_255_eq_mod, Nat.shiftRight_eq_div_pow, Nat.shiftLeft_eq]
  have h1 : v / 2 ^ 8 % 256 = v / 2 ^ 8 := by omega
  rw [h1, Nat.mul_comm (v / 2 ^ 8) (2 ^ 8)]
  have h2 : v % 256 < 2 ^ 8 := by omega
  rw [(Nat.mul_add_lt_is_or h2 (v / 2 ^ 8)).symm]
  omega

theorem recompose32 (v : Nat) (h : v < 2 ^ 32) :
    ((v >>> 24 &&& 0xFF) <<< 24) ||| ((v >>> 16 &&& 0xFF) <<< 16) |||
      ((v >>> 8 &&& 0xFF) <<< 8) ||| (v &&& 0xFF) = v := by
  rw [and_255_eq_mod, and_255_eq_mod, and_255_eq_mod, and_255_eq_mod]
  rw [Nat.shiftRight_eq_div_pow, Nat.shiftRight_eq_div_pow, Nat.shiftRight_eq_div_pow]
  rw [Nat.shiftLeft_eq, Nat.shiftLeft_eq, Nat.shiftLeft_eq]
  rw [Nat.lor_assoc, Nat.lor_assoc]
  have h0 : v % 256 < 2 ^ 8 := by omega
  have e1 : v / 2 ^ 8 % 256 * 2 ^ 8 ||| v % 256
      = v / 2 ^ 8 % 256 * 2 ^ 8 + v % 256 := by
    rw [Nat.mul_comm (v / 2 ^ 8 % 256) (2 ^ 8)]
    exact (Nat.mul_add_lt_is_or h0 _).symm
  rw [e1]
  have h1 : v / 2 ^ 8 % 256 * 2 ^ 8 + v % 256 < 2 ^ 16 := by omega
  have e2 : v / 2 ^ 16 % 256 * 2 ^ 16 ||| (v / 2 ^ 8 % 256 * 2 ^ 8 + v % 256)
      = v / 2 ^ 16 % 256 * 2 ^ 16 + (v / 2 ^ 8 % 256 * 2 ^ 8 + v % 256) := by
    rw [Nat.mul_comm (v / 2 ^ 16 % 256) (2 ^ 16)]
    exact (Nat.mul_add_lt_is_or h1 _).symm
  rw [e2]
  have h2 : v / 2 ^ 16 % 256 * 2 ^ 16 + (v / 2 ^ 8 % 256 * 2 ^ 8 + v % 256)
      < 2 ^ 24 := by omega
  have e3 : v / 2 ^ 24 % 256 * 2 ^ 24 |||
        (v / 2 ^ 16 % 256 * 2 ^ 16 + (v / 2 ^ 8 % 256 * 2 ^ 8 + v % 256))
      = v / 2 ^ 24 % 256 * 2 ^ 24 +
        (v / 2 ^ 16 % 256 * 2 ^ 16 + (v / 2 ^ 8 % 256 * 2 ^ 8 + v % 256)) := by
    rw [Nat.mul_comm (v / 2 ^ 24 % 256) (2 ^ 24)]
    exact (Nat.mul_add_lt_is_or h2 _).symm
  rw [e3]
  omega

/-! Helper lemmas: chained byte writes and the read-back values. -/

theorem updSeg_m_gaddr_start (t : MemSegment) (off v : Nat) :
    (updSeg t off v).m_gaddr_start = t.m_gaddr_start := rfl

theorem updSeg_m_gaddr_end (t : MemSegment) (off v : Nat) :
    (updSeg t off v).m_gaddr_end = t.m_gaddr_end := rfl

theorem updSeg_host (t : MemSegment) (off v j : Nat) :
    (updSeg t off v).host j = if j = off then v else t.host j := rfl

theorem updSeg_contains (t : MemSegment) (off v a : Nat) :
    (updSeg t off v).contains a ↔ t.contains a := Iff.rfl

theorem updSeg_allows (t : MemSegment) (off v : Nat) (acc : MemAccess) :
    (updSeg t off v).allows acc ↔ t.allows acc := Iff.rfl

/-- One link of a chained multi-byte write: the updated table and the facts
needed to keep going. -/
theorem seg_step {g : GuestMem} {i : Nat} {t : MemSegment}
    (hwfAll : ∀ u ∈ g.segments, u.WF) (hpw : g.segments.Pairwise segDisj)
    (hget : getIdx g.segments i = some t) (htwf : t.WF)
    {addr b : Nat} (hc : t.contains addr) (hw : t.allows .write) :
    g.write_u8 addr b =
        .ok ⟨setIdx g.segments i (updSeg t (addr - t.m_gaddr_start) b)⟩ ∧
      (∀ u ∈ setIdx g.segments i (updSeg t (addr - t.m_gaddr_start) b), u.WF) ∧
      (setIdx g.segments i (updSeg t (addr - t.m_gaddr_start) b)).Pairwise segDisj ∧
      getIdx (setIdx g.segments i (updSeg t (addr - t.m_gaddr_start) b)) i
        = some (updSeg t (addr - t.m_gaddr_start) b) := by
  refine ⟨write_u8_eq b hwfAll hpw hget hc hw, ?_, ?_, setIdx_getIdx_self hget⟩
  · exact wfAll_setIdx hwfAll (updSeg_wf _ b htwf)
  · exact pairwise_setIdx hget rfl rfl hpw

/-- The value read_le reassembles byte by byte out of segment t. -/
def leBytes (t : MemSegment) (a : Nat) : Nat → Nat
  | 0 => 0
  | k + 1 => leBytes t a k + t.host (a + k - t.m_gaddr_start) * 2 ^ (8 * k)

theorem me_lt_U64 {t : MemSegment} (htwf : t.WF) : t.m_gaddr_end < U64 := by
  have h4 := htwf.2.2.2.1
  rw [h4]
  exact round_up64_lt _

theorem read_le_at {g : GuestMem} {i : Nat} {t : MemSegment} {a : Nat} (k : Nat)
    (hwfAll : ∀ u ∈ g.segments, u.WF) (hpw : g.segments.Pairwise segDisj)
    (hget : getIdx g.segments i = some t) (hr : t.allows .read)
    (hlo : t.gaddr_start ≤ a) (hhi : a + k ≤ t.m_gaddr_end) :
    read_le g a k = .ok (leBytes t a k) := by
  induction k with
  | zero => simp [read_le, leBytes]
  | succ k ih =>
    have htwf := hwfAll t (getIdx_mem hget)
    have hmeU := me_lt_U64 htwf
    have hmod : (a + k) % U64 = a + k := by
      simp only [U64] at hmeU ⊢
      omega
    have hc : t.contains (a + k) := ⟨by omega, by omega⟩
    unfold read_le
    rw [ih (by omega), hmod, read_u8_eq hwfAll hpw hget hc hr]
    rfl

theorem write_le_at {g : GuestMem} {i : Nat} {t : MemSegment} {a v : Nat} (k : Nat)
    (hwfAll : ∀ u ∈ g.segments, u.WF) (hpw : g.segments.Pairwise segDisj)
    (hget : getIdx g.segments i = some t) (hw : t.allows .write)
    (hlo : t.gaddr_start ≤ a) (hhi : a + k ≤ t.m_gaddr_end) :
    ∃ t2, write_le g a v k = .ok ⟨setIdx g.segments i t2⟩ ∧
      t2.gaddr_start = t.gaddr_start ∧ t2.gaddr_end = t.gaddr_end ∧
      t2.m_gaddr_start = t.m_gaddr_start ∧ t2.m_gaddr_end = t.m_gaddr_end ∧
      t2.host_len = t.host_len ∧ t2.flags = t.flags ∧
      (∀ j, j < k → t2.host (a + j - t.m_gaddr_start) = v / 2 ^ (8 * j) % 256) ∧
      (∀ off, (∀ j, j < k → off ≠ a + j - t.m_gaddr_start) → t2.host off = t.host off) := by
  induction k with
  | zero =>
    refine ⟨t, ?_, rfl, rfl, rfl, rfl, rfl, rfl, by omega, fun off _ => rfl⟩
    rw [show (⟨setIdx g.segments i t⟩ : GuestMem) = g by
      rw [setIdx_self hget]]
    rfl
  | succ k ih =>
    have htwf := hwfAll t (getIdx_mem hget)
    have hmeU := me_lt_U64 htwf
    have hmsle : t.m_gaddr_start ≤ t.gaddr_start := htwf.bounds.1
    obtain ⟨t2, heq, e1, e2, e3, e4, e5, e6, hbytes, hother⟩ := ih (by omega)
    have ht2wf : t2.WF := by
      unfold MemSegment.WF
      rw [e1, e2, e3, e4, e5]
      exact htwf
    have hwfAll2 : ∀ u ∈ setIdx g.segments i t2, u.WF := wfAll_setIdx hwfAll ht2wf
    have hpw2 : (setIdx g.segments i t2).Pairwise segDisj :=
      pairwise_setIdx hget e3 e4 hpw
    have hget2 : getIdx (setIdx g.segments i t2) i = some t2 := setIdx_getIdx_self hget
    have hc2 : t2.contains (a + k) := by
      unfold MemSegment.contains
      rw [e1, e4]
      omega
    have hw2 : t2.allows .write := by
      unfold MemSegment.allows flagsContains at *
      rw [e6]
      exact hw
    have hmod : (a + k) % U64 = a + k := by
      simp only [U64] at hmeU ⊢
      omega
    have hstep : write_le g a v (k + 1) =
        .ok ⟨setIdx g.segments i
          (updSeg t2 (a + k - t2.m_gaddr_start) (v / 2 ^ (8 * k) % 256))⟩ := by
      unfold write_le
      rw [heq, hmod]
      show (match (⟨setIdx g.segments i t2⟩ : GuestMem).write_u8 (a + k)
            (v / 2 ^ (8 * k) % 256) with
        | Outcome.ok g2 => Outcome.ok g2
        | Outcome.err e => Outcome.err e
        | Outcome.panic => Outcome.panic) = _
      rw [write_u8_eq (v / 2 ^ (8 * k) % 256) hwfAll2 hpw2 hget2 hc2 hw2]
      rw [setIdx_setIdx]
    refine ⟨updSeg t2 (a + k - t2.m_gaddr_start) (v / 2 ^ (8 * k) % 256),
      hstep, ?_, ?_, ?_, ?_, ?_, ?_, ?_, ?_⟩
    · rw [show (updSeg t2 _ _).gaddr_start = t2.gaddr_start from rfl]; exact e1
    · rw [show (updSeg t2 _ _).gaddr_end = t2.gaddr_end from rfl]; exact e2
    · rw [updSeg_m_gaddr_start]; exact e3
    · rw [updSeg_m_gaddr_end]; exact e4
    · rw [show (updSeg t2 _ _).host_len = t2.host_len from rfl]; exact e5
    · rw [show (updSeg t2 _ _).flags = t2.flags from rfl]; exact e6
    · intro j hj
      rw [show t2.m_gaddr_start = t.m_gaddr_start from e3, updSeg_host]
      rcases Nat.lt_or_ge j k with hjk | hjk
      · rw [if_neg (by omega)]
        exact hbytes j hjk
      · have hjek : j = k := by omega
        subst hjek
        rw [if_pos rfl]
    · intro off hoff
      rw [updSeg_host, e3, if_neg (hoff k (by omega))]
      exact hother off (fun j hj => hoff j (by omega))

/-! Helper lemmas: write-then-read round trips. -/

theorem write_read_u8 {g : GuestMem} {i : Nat} {t : MemSegment} {a v : Nat}
    (hwf : g.WF) (hget : getIdx g.segments i = some t)
    (hr : t.allows .read) (hw : t.allows .write)
    (hlo : t.gaddr_start ≤ a) (hhi : a + 1 ≤ t.m_gaddr_end) :
    ∃ g2, g.write_u8 a v = .ok g2 ∧ g2.read_u8 a = .ok v := by
  have htwf := hwf.1 t (getIdx_mem hget)
  have hmsle : t.m_gaddr_start ≤ t.gaddr_start := htwf.bounds.1
  have hc0 : t.contains a := ⟨hlo, by omega⟩
  obtain ⟨hw1, hA1, hP1, hG1⟩ := seg_step hwf.1 hwf.2 hget htwf hc0 hw
  refine ⟨_, hw1, ?_⟩
  rw [read_u8_eq hA1 hP1 hG1 ((updSeg_contains t _ v a).mpr hc0)
    ((updSeg_allows t _ v .read).mpr hr)]
  rw [updSeg_m_gaddr_start, updSeg_host, if_pos rfl]

theorem write_read_u16 {g : GuestMem} {i : Nat} {t : MemSegment} {a v : Nat}
    (hwf : g.WF) (hget : getIdx g.segments i = some t)
    (hr : t.allows .read) (hw : t.allows .write)
    (hlo : t.gaddr_start ≤ a) (hhi : a + 2 ≤ t.m_gaddr_end) (hv : v < 2 ^ 16) :
    ∃ g2, g.write_u16 a v = .ok g2 ∧ g2.read_u16 a = .ok v := by
  have htwf := hwf.1 t (getIdx_mem hget)
  have hmeU := me_lt_U64 htwf
  have hmsle : t.m_gaddr_start ≤ t.gaddr_start := htwf.bounds.1
  have hmod1 : (a + 1) % U64 = a + 1 := by
    simp only [U64] at hmeU ⊢
    omega
  have hc0 : t.contains a := ⟨hlo, by omega⟩
  have hc1 : t.contains (a + 1) := ⟨by omega, by omega⟩
  obtain ⟨hw1, hA1, hP1, hG1⟩ := seg_step hwf.1 hwf.2 hget htwf hc0 hw
  obtain ⟨hw2, hA2, hP2, hG2⟩ := seg_step hA1 hP1 hG1
    (updSeg_wf _ _ htwf) ((updSeg_contains t _ _ _).mpr hc1)
    ((updSeg_allows t _ _ .write).mpr hw)
  rw [setIdx_setIdx] at hw2 hA2 hP2 hG2
  rw [show (updSeg t (a - t.m_gaddr_start) (v &&& 0xFF)).m_gaddr_start
    = t.m_gaddr_start from rfl] at hw2 hA2 hP2 hG2
  have hwu16 : g.write_u16 a v = .ok ⟨setIdx g.segments i
      (updSeg (updSeg t (a - t.m_gaddr_start) (v &&& 0xFF))
        (a + 1 - t.m_gaddr_start) (v >>> 8 % 256))⟩ := by
    unfold GuestMem.write_u16
    rw [hmod1, hw1]
    show (match (⟨setIdx g.segments i (updSeg t (a - t.m_gaddr_start) (v &&& 0xFF))⟩ :
          GuestMem).write_u8 (a + 1) (v >>> 8 % 256) with
      | Outcome.ok g2 => Outcome.ok g2
      | Outcome.err e => Outcome.err e
      | Outcome.panic => Outcome.panic) = _
    rw [hw2]
  refine ⟨_, hwu16, ?_⟩
  have hcont2 : ∀ b, (updSeg (updSeg t (a - t.m_gaddr_start) (v &&& 0xFF))
      (a + 1 - t.m_gaddr_start) (v >>> 8 % 256)).contains b ↔ t.contains b :=
    fun b => Iff.rfl
  have hallow2 : (updSeg (updSeg t (a - t.m_gaddr_start) (v &&& 0xFF))
      (a + 1 - t.m_gaddr_start) (v >>> 8 % 256)).allows .read ↔ t.allows .read :=
    Iff.rfl
  have hr0 := read_u8_eq hA2 hP2 hG2 ((hcont2 a).mpr hc0) (hallow2.mpr hr)
  have hr1 := read_u8_eq hA2 hP2 hG2 ((hcont2 (a + 1)).mpr hc1) (hallow2.mpr hr)
  rw [show (updSeg (updSeg t (a - t.m_gaddr_start) (v &&& 0xFF))
    (a + 1 - t.m_gaddr_start) (v >>> 8 % 256)).m_gaddr_start
    = t.m_gaddr_start from rfl] at hr0 hr1
  rw [show (updSeg (updSeg t (a - t.m_gaddr_start) (v &&& 0xFF))
      (a + 1 - t.m_gaddr_start) (v >>> 8 % 256)).host (a - t.m_gaddr_start)
      = v &&& 0xFF by
    rw [updSeg_host, if_neg (by omega), updSeg_host, if_pos rfl]] at hr0
  rw [show (updSeg (updSeg t (a - t.m_gaddr_start) (v &&& 0xFF))
      (a + 1 - t.m_gaddr_start) (v >>> 8 % 256)).host (a + 1 - t.m_gaddr_start)
      = v >>> 8 % 256 by
    rw [updSeg_host, if_pos rfl]] at hr1
  unfold GuestMem.read_u16
  rw [hmod1, hr0]
  show (match (⟨setIdx g.segments i (updSeg (updSeg t (a - t.m_gaddr_start) (v &&& 0xFF))
        (a + 1 - t.m_gaddr_start) (v >>> 8 % 256))⟩ : GuestMem).read_u8 (a + 1) with
    | Outcome.ok high => Outcome.ok ((high <<< 8) ||| (v &&& 0xFF))
    | Outcome.err e => Outcome.err e
    | Outcome.panic => Outcome.panic) = _
  rw [hr1]
  show Outcome.ok (((v >>> 8 % 256) <<< 8) ||| (v &&& 0xFF)) = Outcome.ok v
  rw [show (((v >>> 8 % 256) <<< 8) ||| (v &&& 0xFF)) = v from recompose16 v hv]

theorem le_sum64 (v : Nat) (hv : v < 2 ^ 64) :
    0 + v / 2 ^ (8 * 0) % 256 * 2 ^ (8 * 0) + v / 2 ^ (8 * 1) % 256 * 2 ^ (8 * 1)
      + v / 2 ^ (8 * 2) % 256 * 2 ^ (8 * 2) + v / 2 ^ (8 * 3) % 256 * 2 ^ (8 * 3)
      + v / 2 ^ (8 * 4) % 256 * 2 ^ (8 * 4) + v / 2 ^ (8 * 5) % 256 * 2 ^ (8 * 5)
      + v / 2 ^ (8 * 6) % 256 * 2 ^ (8 * 6) + v / 2 ^ (8 * 7) % 256 * 2 ^ (8 * 7)
      = v := by
  norm_num
  omega

set_option maxHeartbeats 1000000 in
theorem write_read_u64 {g : GuestMem} {i : Nat} {t : MemSegment} {a v : Nat}
    (hwf : g.WF) (hget : getIdx g.segments i = some t)
    (hr : t.allows .read) (hw : t.allows .write)
    (hlo : t.gaddr_start ≤ a) (hhi : a + 8 ≤ t.m_gaddr_end) (hv : v < 2 ^ 64) :
    ∃ g2, g.write_u64 a v = .ok g2 ∧ g2.read_u64 a = .ok v := by
  obtain ⟨t2, heq, e1, e2, e3, e4, e5, e6, hbytes, hother⟩ :=
    write_le_at 8 hwf.1 hwf.2 hget hw hlo hhi
  refine ⟨_, heq, ?_⟩
  have htwf := hwf.1 t (getIdx_mem hget)
  have ht2wf : t2.WF := by
    unfold MemSegment.WF
    rw [e1, e2, e3, e4, e5]
    exact htwf
  have hA : ∀ u ∈ setIdx g.segments i t2, u.WF := wfAll_setIdx hwf.1 ht2wf
  have hP := pairwise_setIdx hget e3 e4 hwf.2
  have hG : getIdx (setIdx g.segments i t2) i = some t2 := setIdx_getIdx_self hget
  have hr2 : t2.allows .read := by
    unfold MemSegment.allows flagsContains at *
    rw [e6]
    exact hr
  have hlo2 : t2.gaddr_start ≤ a := by rw [e1]; exact hlo
  have hhi2 : a + 8 ≤ t2.m_gaddr_end := by rw [e4]; exact hhi
  have hread := read_le_at 8 hA hP hG hr2 hlo2 hhi2
  unfold GuestMem.read_u64
  rw [hread]
  have hexp : leBytes t2 a 8 =
      0 + t2.host (a + 0 - t2.m_gaddr_start) * 2 ^ (8 * 0)
        + t2.host (a + 1 - t2.m_gaddr_start) * 2 ^ (8 * 1)
        + t2.host (a + 2 - t2.m_gaddr_start) * 2 ^ (8 * 2)
        + t2.host (a + 3 - t2.m_gaddr_start) * 2 ^ (8 * 3)
        + t2.host (a + 4 - t2.m_gaddr_start) * 2 ^ (8 * 4)
        + t2.host (a + 5 - t2.m_gaddr_start) * 2 ^ (8 * 5)
        + t2.host (a + 6 - t2.m_gaddr_start) * 2 ^ (8 * 6)
        + t2.host (a + 7 - t2.m_gaddr_start) * 2 ^ (8 * 7) := rfl
  rw [e3] at hexp
  rw [hbytes 0 (by omega), hbytes 1 (by omega), hbytes 2 (by omega),
    hbytes 3 (by omega), hbytes 4 (by omega), hbytes 5 (by omega),
    hbytes 6 (by omega), hbytes 7 (by omega)] at hexp
  rw [hexp, le_sum64 v hv]

theorem write_read_u32 {g : GuestMem} {i : Nat} {t : MemSegment} {a v : Nat}
    (hwf : g.WF) (hget : getIdx g.segments i = some t)
    (hr : t.allows .read) (hw : t.allows .write)
    (hlo : t.gaddr_start ≤ a) (hhi : a + 4 ≤ t.m_gaddr_end) (hv : v < 2 ^ 32) :
    ∃ g2, g.write_u32 a v = .ok g2 ∧ g2.read_u32 a = .ok v := by
  have htwf := hwf.1 t (getIdx_mem hget)
  have hmeU := me_lt_U64 htwf
  have hmsle : t.m_gaddr_start ≤ t.gaddr_start := htwf.bounds.1
  have hmod1 : (a + 1) % U64 = a + 1 := by
    simp only [U64] at hmeU ⊢
    omega
  have hmod2 : (a + 2) % U64 = a + 2 := by
    simp only [U64] at hmeU ⊢
    omega
  have hmod3 : (a + 3) % U64 = a + 3 := by
    simp only [U64] at hmeU ⊢
    omega
  have hc0 : t.contains a := ⟨hlo, by omega⟩
  have hc1 : t.contains (a + 1) := ⟨by omega, by omega⟩
  have hc2 : t.contains (a + 2) := ⟨by omega, by omega⟩
  have hc3 : t.contains (a + 3) := ⟨by omega, by omega⟩
  obtain ⟨hw1, hA1, hP1, hG1⟩ := seg_step hwf.1 hwf.2 hget htwf hc0 hw
  have hwfT1 : (updSeg t (a - t.m_gaddr_start) (v &&& 0xFF)).WF := htwf
  have hcT1 : (updSeg t (a - t.m_gaddr_start) (v &&& 0xFF)).contains (a + 1) := hc1
  have hwT1 : (updSeg t (a - t.m_gaddr_start) (v &&& 0xFF)).allows .write := hw
  obtain ⟨hw2, hA2, hP2, hG2⟩ := seg_step hA1 hP1 hG1 hwfT1 hcT1 hwT1
  rw [setIdx_setIdx] at hw2 hA2 hP2 hG2
  rw [show (updSeg t (a - t.m_gaddr_start) (v &&& 0xFF)).m_gaddr_start = t.m_gaddr_start from rfl] at hw2 hA2 hP2 hG2
  have hwfT2 : (updSeg (updSeg t (a - t.m_gaddr_start) (v &&& 0xFF)) (a + 1 - t.m_gaddr_start) (v >>> 8 &&& 0xFF)).WF := htwf
  have hcT2 : (updSeg (updSeg t (a - t.m_gaddr_start) (v &&& 0xFF)) (a + 1 - t.m_gaddr_start) (v >>> 8 &&& 0xFF)).contains (a + 2) := hc2
  have hwT2 : (updSeg (updSeg t (a - t.m_gaddr_start) (v &&& 0xFF)) (a + 1 - t.m_gaddr_start) (v >>> 8 &&& 0xFF)).allows .write := hw
  obtain ⟨hw3, hA3, hP3, hG3⟩ := seg_step hA2 hP2 hG2 hwfT2 hcT2 hwT2
  rw [setIdx_setIdx] at hw3 hA3 hP3 hG3
  rw [show (updSeg (updSeg t (a - t.m_gaddr_start) (v &&& 0xFF)) (a + 1 - t.m_gaddr_start) (v >>> 8 &&& 0xFF)).m_gaddr_start = t.m_gaddr_start from rfl] at hw3 hA3 hP3 hG3
  have hwfT3 : (updSeg (updSeg (updSeg t (a - t.m_gaddr_start) (v &&& 0xFF)) (a + 1 - t.m_gaddr_start) (v >>> 8 &&& 0xFF)) (a + 2 - t.m_gaddr_start) (v >>> 16 &&& 0xFF)).WF := htwf
  have hcT3 : (updSeg (updSeg (updSeg t (a - t.m_gaddr_start) (v &&& 0xFF)) (a + 1 - t.m_gaddr_start) (v >>> 8 &&& 0xFF)) (a + 2 - t.m_gaddr_start) (v >>> 16 &&& 0xFF)).contains (a + 3) := hc3
  have hwT3 : (updSeg (updSeg (updSeg t (a - t.m_gaddr_start) (v &&& 0xFF)) (a + 1 - t.m_gaddr_start) (v >>> 8 &&& 0xFF)) (a + 2 - t.m_gaddr_start) (v >>> 16 &&& 0xFF)).allows .write := hw
  obtain ⟨hw4, hA4, hP4, hG4⟩ := seg_step hA3 hP3 hG3 hwfT3 hcT3 hwT3
  rw [setIdx_setIdx] at hw4 hA4 hP4 hG4
  rw [show (updSeg (updSeg (updSeg t (a - t.m_gaddr_start) (v &&& 0xFF)) (a + 1 - t.m_gaddr_start) (v >>> 8 &&& 0xFF)) (a + 2 - t.m_gaddr_start) (v >>> 16 &&& 0xFF)).m_gaddr_start = t.m_gaddr_start from rfl] at hw4 hA4 hP4 hG4
  have hwu32 : g.write_u32 a v = .ok ⟨setIdx g.segments i (updSeg (updSeg (updSeg (updSeg t (a - t.m_gaddr_start) (v &&& 0xFF)) (a + 1 - t.m_gaddr_start) (v >>> 8 &&& 0xFF)) (a + 2 - t.m_gaddr_start) (v >>> 16 &&& 0xFF)) (a + 3 - t.m_gaddr_start) (v >>> 24 &&& 0xFF))⟩ := by
    unfold GuestMem.write_u32
    rw [hmod1, hmod2, hmod3, hw1]
    show (match (⟨setIdx g.segments i (updSeg t (a - t.m_gaddr_start) (v &&& 0xFF))⟩ :
          GuestMem).write_u8 (a + 1) (v >>> 8 &&& 0xFF) with
      | Outcome.ok g2 =>
        match g2.write_u8 (a + 2) (v >>> 16 &&& 0xFF) with
        | Outcome.ok g3 =>
          (match g3.write_u8 (a + 3) (v >>> 24 &&& 0xFF) with
            | Outcome.ok g4 => Outcome.ok g4
            | Outcome.err e => Outcome.err e
            | Outcome.panic => Outcome.panic)
        | Outcome.err e => Outcome.err e
        | Outcome.panic => Outcome.panic
      | Outcome.err e => Outcome.err e
      | Outcome.panic => Outcome.panic) = _
    rw [hw2]
    show (match (⟨setIdx g.segments i (updSeg (updSeg t (a - t.m_gaddr_start) (v &&& 0xFF)) (a + 1 - t.m_gaddr_start) (v >>> 8 &&& 0xFF))⟩ :
          GuestMem).write_u8 (a + 2) (v >>> 16 &&& 0xFF) with
      | Outcome.ok g2 =>
        match g2.write_u8 (a + 3) (v >>> 24 &&& 0xFF) with
        | Outcome.ok g4 => Outcome.ok g4
        | Outcome.err e => Outcome.err e
        | Outcome.panic => Outcome.panic
      | Outcome.err e => Outcome.err e
      | Outcome.panic => Outcome.panic) = _
    rw [hw3]
    show (match (⟨setIdx g.segments i (updSeg (updSeg (updSeg t (a - t.m_gaddr_start) (v &&& 0xFF)) (a + 1 - t.m_gaddr_start) (v >>> 8 &&& 0xFF)) (a + 2 - t.m_gaddr_start) (v >>> 16 &&& 0xFF))⟩ :
          GuestMem).write_u8 (a + 3) (v >>> 24 &&& 0xFF) with
      | Outcome.ok g2 =>
        Outcome.ok g2
      | Outcome.err e => Outcome.err e
      | Outcome.panic => Outcome.panic) = _
    rw [hw4]
  refine ⟨_, hwu32, ?_⟩
  have hh0 : (updSeg (updSeg (updSeg (updSeg t (a - t.m_gaddr_start) (v &&& 0xFF)) (a + 1 - t.m_gaddr_start) (v >>> 8 &&& 0xFF)) (a + 2 - t.m_gaddr_start) (v >>> 16 &&& 0xFF)) (a + 3 - t.m_gaddr_start) (v >>> 24 &&& 0xFF)).host (a - t.m_gaddr_start) = (v &&& 0xFF) := by
    rw [updSeg_host, if_neg (by omega), updSeg_host, if_neg (by omega), updSeg_host, if_neg (by omega), updSeg_host, if_pos (by omega)]
  have hh1 : (updSeg (updSeg (updSeg (updSeg t (a - t.m_gaddr_start) (v &&& 0xFF)) (a + 1 - t.m_gaddr_start) (v >>> 8 &&& 0xFF)) (a + 2 - t.m_gaddr_start) (v >>> 16 &&& 0xFF)) (a + 3 - t.m_gaddr_start) (v >>> 24 &&& 0xFF)).host (a + 1 - t.m_gaddr_start) = (v >>> 8 &&& 0xFF) := by
    rw [updSeg_host, if_neg (by omega), updSeg_host, if_neg (by omega), updSeg_host, if_pos (by omega)]
  have hh2 : (updSeg (updSeg (updSeg (updSeg t (a - t.m_gaddr_start) (v &&& 0xFF)) (a + 1 - t.m_gaddr_start) (v >>> 8 &&& 0xFF)) (a + 2 - t.m_gaddr_start) (v >>> 16 &&& 0xFF)) (a + 3 - t.m_gaddr_start) (v >>> 24 &&& 0xFF)).host (a + 2 - t.m_gaddr_start) = (v >>> 16 &&& 0xFF) := by
    rw [updSeg_host, if_neg (by omega), updSeg_host, if_pos (by omega)]
  have hh3 : (updSeg (updSeg (updSeg (updSeg t (a - t.m_gaddr_start) (v &&& 0xFF)) (a + 1 - t.m_gaddr_start) (v >>> 8 &&& 0xFF)) (a + 2 - t.m_gaddr_start) (v >>> 16 &&& 0xFF)) (a + 3 - t.m_gaddr_start) (v >>> 24 &&& 0xFF)).host (a + 3 - t.m_gaddr_start) = (v >>> 24 &&& 0xFF) := by
    rw [updSeg_host, if_pos (by omega)]
  have hcT4 : ∀ b, t.contains b → (updSeg (updSeg (updSeg (updSeg t (a - t.m_gaddr_start) (v &&& 0xFF)) (a + 1 - t.m_gaddr_start) (v >>> 8 &&& 0xFF)) (a + 2 - t.m_gaddr_start) (v >>> 16 &&& 0xFF)) (a + 3 - t.m_gaddr_start) (v >>> 24 &&& 0xFF)).contains b := fun b hb => hb
  have hrT4 : (updSeg (updSeg (updSeg (updSeg t (a - t.m_gaddr_start) (v &&& 0xFF)) (a + 1 - t.m_gaddr_start) (v >>> 8 &&& 0xFF)) (a + 2 - t.m_gaddr_start) (v >>> 16 &&& 0xFF)) (a + 3 - t.m_gaddr_start) (v >>> 24 &&& 0xFF)).allows .read := hr
  have hr0 := read_u8_eq hA4 hP4 hG4 (hcT4 a hc0) hrT4
  have hr1 := read_u8_eq hA4 hP4 hG4 (hcT4 (a + 1) hc1) hrT4
  have hr2 := read_u8_eq hA4 hP4 hG4 (hcT4 (a + 2) hc2) hrT4
  have hr3 := read_u8_eq hA4 hP4 hG4 (hcT4 (a + 3) hc3) hrT4
  rw [show (updSeg (updSeg (updSeg (updSeg t (a - t.m_gaddr_start) (v &&& 0xFF)) (a + 1 - t.m_gaddr_start) (v >>> 8 &&& 0xFF)) (a + 2 - t.m_gaddr_start) (v >>> 16 &&& 0xFF)) (a + 3 - t.m_gaddr_start) (v >>> 24 &&& 0xFF)).m_gaddr_start = t.m_gaddr_start from rfl] at hr0 hr1 hr2 hr3
  rw [hh0] at hr0
  rw [hh1] at hr1
  rw [hh2] at hr2
  rw [hh3] at hr3
  unfold GuestMem.read_u32
  rw [hmod1, hmod2, hmod3, hr0]
  show (match (⟨setIdx g.segments i (updSeg (updSeg (updSeg (updSeg t (a - t.m_gaddr_start) (v &&& 0xFF)) (a + 1 - t.m_gaddr_start) (v >>> 8 &&& 0xFF)) (a + 2 - t.m_gaddr_start) (v >>> 16 &&& 0xFF)) (a + 3 - t.m_gaddr_start) (v >>> 24 &&& 0xFF))⟩ :
        GuestMem).read_u8 (a + 1) with
    | Outcome.ok b1 =>
      match (⟨setIdx g.segments i (updSeg (updSeg (updSeg (updSeg t (a - t.m_gaddr_start) (v &&& 0xFF)) (a + 1 - t.m_gaddr_start) (v >>> 8 &&& 0xFF)) (a + 2 - t.m_gaddr_start) (v >>> 16 &&& 0xFF)) (a + 3 - t.m_gaddr_start) (v >>> 24 &&& 0xFF))⟩ :
          GuestMem).read_u8 (a + 2) with
      | Outcome.ok b2 =>
        (match (⟨setIdx g.segments i (updSeg (updSeg (updSeg (updSeg t (a - t.m_gaddr_start) (v &&& 0xFF)) (a + 1 - t.m_gaddr_start) (v >>> 8 &&& 0xFF)) (a + 2 - t.m_gaddr_start) (v >>> 16 &&& 0xFF)) (a + 3 - t.m_gaddr_start) (v >>> 24 &&& 0xFF))⟩ :
            GuestMem).read_u8 (a + 3) with
          | Outcome.ok b3 => Outcome.ok ((b3 <<< 24) ||| (b2 <<< 16) ||| (b1 <<< 8) ||| (v &&& 0xFF))
          | Outcome.err e => Outcome.err e
          | Outcome.panic => Outcome.panic)
      | Outcome.err e => Outcome.err e
      | Outcome.panic => Outcome.panic
    | Outcome.err e => Outcome.err e
    | Outcome.panic => Outcome.panic) = _
  rw [hr1]
  show (match (⟨setIdx g.segments i (updSeg (updSeg (updSeg (updSeg t (a - t.m_gaddr_start) (v &&& 0xFF)) (a + 1 - t.m_gaddr_start) (v >>> 8 &&& 0xFF)) (a + 2 - t.m_gaddr_start) (v >>> 16 &&& 0xFF)) (a + 3 - t.m_gaddr_start) (v >>> 24 &&& 0xFF))⟩ :
        GuestMem).read_u8 (a + 2) with
    | Outcome.ok b2 =>
      match (⟨setIdx g.segments i (updSeg (updSeg (updSeg (updSeg t (a - t.m_gaddr_start) (v &&& 0xFF)) (a + 1 - t.m_gaddr_start) (v >>> 8 &&& 0xFF)) (a + 2 - t.m_gaddr_start) (v >>> 16 &&& 0xFF)) (a + 3 - t.m_gaddr_start) (v >>> 24 &&& 0xFF))⟩ :
          GuestMem).read_u8 (a + 3) with
      | Outcome.ok b3 => Outcome.ok ((b3 <<< 24) ||| (b2 <<< 16) ||| ((v >>> 8 &&& 0xFF) <<< 8) ||| (v &&& 0xFF))
      | Outcome.err e => Outcome.err e
      | Outcome.panic => Outcome.panic
    | Outcome.err e => Outcome.err e
    | Outcome.panic => Outcome.panic) = _
  rw [hr2]
  show (match (⟨setIdx g.segments i (updSeg (updSeg (updSeg (updSeg t (a - t.m_gaddr_start) (v &&& 0xFF)) (a + 1 - t.m_gaddr_start) (v >>> 8 &&& 0xFF)) (a + 2 - t.m_gaddr_start) (v >>> 16 &&& 0xFF)) (a + 3 - t.m_gaddr_start) (v >>> 24 &&& 0xFF))⟩ :
        GuestMem).read_u8 (a + 3) with
    | Outcome.ok b3 =>
      Outcome.ok ((b3 <<< 24) ||| ((v >>> 16 &&& 0xFF) <<< 16) ||| ((v >>> 8 &&& 0xFF) <<< 8) ||| (v &&& 0xFF))
    | Outcome.err e => Outcome.err e
    | Outcome.panic => Outcome.panic) = _
  rw [hr3]
  show Outcome.ok (((v >>> 24 &&& 0xFF) <<< 24) ||| ((v >>> 16 &&& 0xFF) <<< 16) |||
      ((v >>> 8 &&& 0xFF) <<< 8) ||| (v &&& 0xFF)) = Outcome.ok v
  rw [recompose32 v hv]


/-! Helper lemmas: x0 after one executed instruction. -/

theorem decode_exec_x0 {raw : Nat} {insn : Instruction} {ex : ExecutorT}
    (hdec : Rv64IDecoder.decode raw = .ok (some (insn, ex)))
    {s : State} {g : GuestMem} {s2 : State} {g2 : GuestMem}
    (hex : ex s g insn = .ok (s2, g2))
    (hx0 : s.x 0 = 0) (hrd : raw >>> 7 &&& 0x1f ≠ 0) : s2.x 0 = 0 := by
  unfold Rv64IDecoder.decode at hdec
  dsimp only at hdec
  split at hdec <;> try split at hdec <;> try split at hdec
  all_goals simp only [Outcome.ok.injEq, Option.some.injEq, Prod.mk.injEq,
    reduceCtorEq] at hdec
  all_goals obtain ⟨hinsn, hex0⟩ := hdec
  all_goals subst hinsn
  all_goals subst hex0
  all_goals simp only [rv64i_lui, rv64i_auipc, rv64i_lb, rv64i_lh, rv64i_lw,
    rv64i_ld, rv64i_lbu, rv64i_lhu, rv64i_lwu, rv64i_sb, rv64i_sh, rv64i_sw,
    rv64i_sd, rv64i_addi, rv64i_slli, rv64i_slti, rv64i_sltiu, rv64i_xori,
    rv64i_srli, rv64i_srai, rv64i_ori, rv64i_andi, rv64i_beq, rv64i_bne,
    rv64i_blt, rv64i_bge, rv64i_bltu, rv64i_bgeu, rv64i_jal, rv64i_jalr,
    rv64i_add, rv64i_sub, rv64i_sll, rv64i_slt, rv64i_sltu, rv64i_xor,
    rv64i_srl, rv64i_sra, rv64i_or, rv64i_and] at hex
  all_goals try split at hex
  all_goals try simp only [Outcome.ok.injEq, Prod.mk.injEq, reduceCtorEq] at hex
  all_goals try obtain ⟨hs2, hg2⟩ := hex
  all_goals try subst hs2
  all_goals try simp only [updX]
  all_goals try rw [if_neg (by omega)]
  all_goals try exact hx0

theorem step_x0 {s0 : State} {g : GuestMem} {out : State × GuestMem × Option BreakCause}
    (hstep : Hart.step rv64Decoders s0 g = .ok out)
    (hraw : ∀ raw, g.read_u32 s0.pc = .ok raw → raw >>> 7 &&& 0x1f ≠ 0) :
    out.1.x 0 = 0 := by
  unfold Hart.step at hstep
  dsimp only at hstep
  split at hstep
  · simp at hstep
  · split at hstep
    · simp at hstep
    · simp at hstep
    · rename_i raw hfetch
      have hrd := hraw raw hfetch
      split at hstep
      · simp at hstep
      · simp at hstep
      · simp at hstep
      · rename_i insn ex hdecEq
        unfold hartDecode rv64Decoders at hdecEq
        dsimp only at hdecEq
        rcases hd : Rv64IDecoder.decode raw with r | e | _ <;> rw [hd] at hdecEq
        · rcases r with _ | p
          · simp [hartDecode] at hdecEq
          · obtain ⟨insn2, ex2⟩ := p
            simp only [Outcome.ok.injEq, Option.some.injEq, Prod.mk.injEq] at hdecEq
            obtain ⟨hi2, he2⟩ := hdecEq
            subst hi2
            subst he2
            split at hstep
            · simp at hstep
            · simp at hstep
            · rename_i s2 g2 hexEq
              have hx0s : ({ s0 with x := updX s0.x 0 0, break_on := none } : State).x 0 = 0 := by
                simp [updX]
              have hx2 := decode_exec_x0 hd hexEq hx0s hrd
              split at hstep
              · rcases Outcome.ok.inj hstep with h
                subst h
                dsimp only
                split
                · exact hx2
                · exact hx2
              · rcases Outcome.ok.inj hstep with h
                subst h
                dsimp only
                split
                · exact hx2
                · exact hx2
        · simp at hdecEq
        · simp at hdecEq


/-! Claim theorems. -/

/-- Claim C1 (code bug): the decoder hits unimplemented!() on the SYSTEM opcode,
so the ecall word 0x00000073 and the ebreak word 0x00100073 make the whole step
panic instead of latching the break cause.  The (unreachable) executors
rv64i_ecall and rv64i_ebreak would set the latch without touching pc, as the
claim states. -/
theorem c1_system_decode_panics :
    Rv64IDecoder.decode 0x00000073 = .panic ∧
    Rv64IDecoder.decode 0x00100073 = .panic ∧
    Hart.step rv64Decoders st0 memC1 = .panic ∧
    rv64i_ecall st0 GuestMem.new (.C 0 0x73) =
      .ok ({ st0 with break_on := some BreakCause.ecall }, GuestMem.new) ∧
    rv64i_ebreak st0 GuestMem.new (.C 0 0x73) =
      .ok ({ st0 with break_on := some BreakCause.ebreak }, GuestMem.new) :=
  ⟨rfl, rfl, rfl, rfl, rfl⟩

/-- Claim C2 (code bug): a taken beq whose 13-bit B-immediate is 0x800
(offset +2048), executed at pc 0x1000, lands at 0x800 = pc - 2048, because the
executor sign-extends the immediate from 12 bits; the claimed semantics
pc + sign_extend(imm_b, 13) would give 0x1800. -/
theorem c2_branch_sign_extends_12 :
    imm_B 0x000000E3 = 0x800 ∧
    stepPc (Hart.step rv64Decoders st1000 memC2) = some 0x800 ∧
    (0x1000 + sxt64 0x800 13) % U64 = 0x1800 :=
  ⟨by decide, by decide, by decide⟩

/-- Claim C3 (code bug): lui and auipc zero-extend the 32-bit U-immediate
(zero_extend!(imm, 32)), so for imm_u = 0xFFFFF000 the register ends with
zero upper bits, while the claimed sign extension gives 0xFFFFFFFFFFFFF000. -/
theorem c3_lui_auipc_zero_extend :
    stepX (Hart.step rv64Decoders st0 memC3a) 1 = some 0xFFFFF000 ∧
    stepX (Hart.step rv64Decoders st0 memC3b) 1 = some 0xFFFFF000 ∧
    sxt64 0xFFFFF000 32 = 0xFFFFFFFFFFFFF000 :=
  ⟨by decide, by decide, by decide⟩

/-- Claim C4 counterexample: a READ segment whose gaddr_start 0x1800 is not
page-aligned has page range [0x1000, 0x2000), yet read_u8 at 0x1000 (inside
the page range, below gaddr_start) returns MemAccessFault instead of
succeeding as the claim demands. -/
theorem c4_counterexample :
    GuestMem.read_u8 memC4 0x1000 = .err (.memAccessFault .read 0x1000) ∧
    (segOf memC4).m_gaddr_start = 0x1000 ∧
    (segOf memC4).m_gaddr_end = 0x2000 ∧
    (segOf memC4).gaddr_start = 0x1800 ∧
    flagsContains (segOf memC4).flags MF_READ ∧
    memC4.segments = [segOf memC4] :=
  ⟨rfl, by decide, by decide, by decide, by decide, rfl⟩

/-- Claim C4 (amended): in a well-formed segment table, read_u8 succeeds
exactly on [gaddr_start, m_gaddr_end) of a READ segment; the page padding
below gaddr_start faults, and so does every address in no segment's
page-aligned range. -/
theorem c4_amended (g : GuestMem) (hwf : g.WF) :
    (∀ t ∈ g.segments, t.allows .read → ∀ a, t.gaddr_start ≤ a →
      a < t.m_gaddr_end → ∃ b, g.read_u8 a = .ok b) ∧
    (∀ t ∈ g.segments, ∀ a, t.m_gaddr_start ≤ a → a < t.gaddr_start →
      a < t.m_gaddr_end → g.read_u8 a = .err (.memAccessFault .read a)) ∧
    (∀ a, (∀ t ∈ g.segments, ¬(t.m_gaddr_start ≤ a ∧ a < t.m_gaddr_end)) →
      g.read_u8 a = .err (.memAccessFault .read a)) := by
  refine ⟨?_, ?_, ?_⟩
  · intro t ht hr a hlo hhi
    obtain ⟨i, hget⟩ := mem_getIdx ht
    exact ⟨_, read_u8_eq hwf.1 hwf.2 hget ⟨hlo, hhi⟩ hr⟩
  · intro t ht a hms hgs hme
    obtain ⟨i, hget⟩ := mem_getIdx ht
    unfold GuestMem.read_u8 GuestMem.decompose
    rw [decompGo_none]
    intro p hp hcand
    obtain ⟨_, hj⟩ := withIdx_getIdx (List.mem_reverse.mp hp)
    simp at hj
    have hu := candidate_in_m_range hcand
    simp at hu
    rcases Nat.lt_trichotomy p.1 i with hlt | heqi | hgt
    · have hd := pairwise_getIdx hwf.2 hlt hj hget
      unfold segDisj at hd
      omega
    · rw [heqi, hget] at hj
      simp at hj
      have hcontains := hcand.2
      rw [← hj] at hcontains
      exact absurd hcontains.1 (by omega)
    · have hd := pairwise_getIdx hwf.2 hgt hget hj
      unfold segDisj at hd
      omega
  · intro a hnone
    exact read_u8_fault hnone

/-- Claim C4 witness: the concrete table memC4 evaluated at the three kinds
of addresses. -/
theorem c4_witness :
    (∃ b, GuestMem.read_u8 memC4 0x18ff = .ok b) ∧
    GuestMem.read_u8 memC4 0x17ff = .err (.memAccessFault .read 0x17ff) ∧
    GuestMem.read_u8 memC4 0x2000 = .err (.memAccessFault .read 0x2000) := by
  have h := c4_amended memC4 (by decide)
  have hmem : segOf memC4 ∈ memC4.segments := by
    rw [show memC4.segments = [segOf memC4] from rfl]
    exact List.mem_cons_self _ _
  refine ⟨h.1 (segOf memC4) hmem (by decide) 0x18ff (by decide) (by decide),
    h.2.1 (segOf memC4) hmem 0x17ff (by decide) (by decide) (by decide),
    h.2.2 0x2000 (by decide)⟩

/-- Claim C5 counterexample: the hart fetch goes through read_u32, which is
permission-checked against READ; on an EXECUTE-only segment the fetch (and
the whole step) fails with PermissionDenied, while the claim says a fetch on
an EXECUTE segment without READ succeeds. -/
theorem c5_counterexample :
    flagsContains (segOf memC5).flags MF_EXECUTE ∧
    ¬ flagsContains (segOf memC5).flags MF_READ ∧
    GuestMem.read_u32 memC5 0x1000 = .err .permissionDenied ∧
    Hart.step rv64Decoders st1000 memC5 = .err .permissionDenied :=
  ⟨by decide, by decide, rfl, rfl⟩

/-- Claim C5 (amended): the 4-byte instruction fetch at pc (read_u32, which is
what Hart::step calls) is permission-checked against the READ access: inside
a segment it succeeds iff the segment has the READ flag; the EXECUTE flag is
not consulted. -/
theorem c5_amended (g : GuestMem) (hwf : g.WF) (t : MemSegment)
    (ht : t ∈ g.segments) (pc : Nat)
    (hlo : t.gaddr_start ≤ pc) (hhi : pc + 4 ≤ t.m_gaddr_end) :
    (t.allows .read → ∃ raw, g.read_u32 pc = .ok raw) ∧
    (¬ t.allows .read → g.read_u32 pc = .err .permissionDenied) := by
  obtain ⟨i, hget⟩ := mem_getIdx ht
  have htwf := hwf.1 t (getIdx_mem hget)
  have hmeU := me_lt_U64 htwf
  have hmod1 : (pc + 1) % U64 = pc + 1 := by
    simp only [U64] at hmeU ⊢
    omega
  have hmod2 : (pc + 2) % U64 = pc + 2 := by
    simp only [U64] at hmeU ⊢
    omega
  have hmod3 : (pc + 3) % U64 = pc + 3 := by
    simp only [U64] at hmeU ⊢
    omega
  constructor
  · intro hr
    have h0 := @read_u8_eq g pc i t hwf.1 hwf.2 hget ⟨hlo, by omega⟩ hr
    have h1 := @read_u8_eq g (pc + 1) i t hwf.1 hwf.2 hget ⟨by omega, by omega⟩ hr
    have h2 := @read_u8_eq g (pc + 2) i t hwf.1 hwf.2 hget ⟨by omega, by omega⟩ hr
    have h3 := @read_u8_eq g (pc + 3) i t hwf.1 hwf.2 hget ⟨by omega, by omega⟩ hr
    refine ⟨((t.host (pc + 3 - t.m_gaddr_start)) <<< 24) |||
      ((t.host (pc + 2 - t.m_gaddr_start)) <<< 16) |||
      ((t.host (pc + 1 - t.m_gaddr_start)) <<< 8) |||
      t.host (pc - t.m_gaddr_start), ?_⟩
    unfold GuestMem.read_u32
    rw [hmod1, hmod2, hmod3, h0, h1, h2, h3]
  · intro hnr
    have h8 : g.read_u8 pc = .err .permissionDenied := by
      unfold GuestMem.read_u8
      rw [decompose_eq .read hwf.1 hwf.2 hget ⟨hlo, by omega⟩, if_neg hnr]
    unfold GuestMem.read_u32
    rw [h8]

/-- Claim C5 witness: fetch succeeds on a READ segment and is denied on an
EXECUTE-only segment. -/
theorem c5_witness :
    (∃ raw, GuestMem.read_u32 memC1 0 = .ok raw) ∧
    GuestMem.read_u32 memC5 0x1000 = .err .permissionDenied := by
  have hmem1 : segOf memC1 ∈ memC1.segments := by
    rw [show memC1.segments = [segOf memC1] from rfl]
    exact List.mem_cons_self _ _
  have hmem5 : segOf memC5 ∈ memC5.segments := by
    rw [show memC5.segments = [segOf memC5] from rfl]
    exact List.mem_cons_self _ _
  have h1 := c5_amended memC1 (by decide) (segOf memC1) hmem1 0 (by decide) (by decide)
  have h5 := c5_amended memC5 (by decide) (segOf memC5) hmem5 0x1000 (by decide) (by decide)
  exact ⟨h1.1 (by decide), h5.2 (by decide)⟩

/-- Claim C6 counterexample: add_segment with len == 0 panics on its
assert!(len != 0) instead of returning an error (no InvalidSegment variant
exists in the code). -/
theorem c6_counterexample :
    GuestMem.new.add_segment 0x1000 0 MF_READ none = .panic := rfl

/-- Claim C6 (amended): add_segment aborts via its assertion when len == 0;
the byte accessors themselves, on a well-formed table, never panic for any
64-bit address and value: per-byte addresses wrap and every failure is a
returned error. -/
theorem c6_amended (g : GuestMem) (hwf : g.WF) (a v : Nat) :
    g.read_u8 a ≠ .panic ∧ g.read_u16 a ≠ .panic ∧ g.read_u32 a ≠ .panic ∧
    g.read_u64 a ≠ .panic ∧ g.write_u8 a v ≠ .panic ∧ g.write_u16 a v ≠ .panic ∧
    g.write_u32 a v ≠ .panic ∧ g.write_u64 a v ≠ .panic :=
  ⟨read_u8_ne_panic hwf.1, read_u16_ne_panic hwf.1, read_u32_ne_panic hwf.1,
    read_u64_ne_panic hwf.1, write_u8_ne_panic hwf.1, write_u16_ne_panic hwf,
    write_u32_ne_panic hwf, write_u64_ne_panic hwf⟩

/-- Claim C6 witness: no panic at the very top of the address space, where the
per-byte address computation wraps. -/
theorem c6_witness :
    GuestMem.read_u64 memRW (2 ^ 64 - 1) ≠ .panic ∧
    GuestMem.write_u64 memRW (2 ^ 64 - 1) 0xAB ≠ .panic := by
  have h := c6_amended memRW (by decide) (2 ^ 64 - 1) 0xAB
  exact ⟨h.2.2.2.1, h.2.2.2.2.2.2.2⟩

/-- Claim C7 counterexample: with a stored segment of page range
[0x1000, 0x2000), the call add_segment(0x1800, 0, ...) has page-rounded range
[0x1000, 0x2000) intersecting it, yet it panics on assert!(len != 0) rather
than returning SegmentOverlap. -/
theorem c7_counterexample :
    (segOf memRW).m_gaddr_start = 0x1000 ∧
    (segOf memRW).m_gaddr_end = 0x2000 ∧
    round_down64 0x1800 = 0x1000 ∧
    round_up64 ((0x1800 + 0) % U64) = 0x2000 ∧
    GuestMem.add_segment memRW 0x1800 0 MF_READ none = .panic :=
  ⟨by decide, by decide, by decide, by decide, rfl⟩

/-- Claim C7 (amended): any add_segment call with len ≠ 0 whose page-rounded
range meets the page-aligned range of a stored segment returns SegmentOverlap
and inserts nothing (a len == 0 call panics before the preflight); every
successful call preserves well-formedness, hence any two stored segments have
disjoint page-aligned ranges. -/
theorem c7_amended (g : GuestMem) (gs len flags : Nat) (data : Option (List Nat))
    (hwf : g.WF) :
    (len ≠ 0 →
      (∃ t ∈ g.segments, ∃ x, round_down64 gs ≤ x ∧
        x < round_up64 ((gs + len) % U64) ∧
        t.m_gaddr_start ≤ x ∧ x < t.m_gaddr_end) →
      g.add_segment gs len flags data = .err .segmentOverlap) ∧
    (∀ g2, g.add_segment gs len flags data = .ok g2 → g2.WF) :=
  ⟨fun hlen hint => add_segment_overlap_err hwf hlen
      (by obtain ⟨t, ht, hx⟩ := hint; exact ⟨t, ht, hx⟩),
    fun g2 hok => add_segment_wf hwf hok⟩

/-- Claim C7 witness: an overlapping len ≠ 0 call is refused, and the table
built by a successful call is well-formed. -/
theorem c7_witness :
    GuestMem.add_segment memRW 0x1800 0x100 MF_READ none = .err .segmentOverlap ∧
    memRW.WF := by
  have h := c7_amended memRW 0x1800 0x100 MF_READ none (by decide)
  have h0 := c7_amended GuestMem.new 0x1000 0x1000 (MF_READ ||| MF_WRITE) none
    (by decide)
  have hmem : segOf memRW ∈ memRW.segments := by
    rw [show memRW.segments = [segOf memRW] from rfl]
    exact List.mem_cons_self _ _
  refine ⟨h.1 (by decide) ⟨segOf memRW, hmem, 0x1800, by decide, by decide,
    by decide, by decide⟩, ?_⟩
  exact h0.2 memRW rfl

/-- Claim C8 counterexample: a completed step of jal x0, 0 (raw 0x0000006F,
rd field = x0) ends with x[0] = 4, not 0: the hart resets x[0] at the start
of the next step, not after the current one. -/
theorem c8_counterexample :
    stepX (Hart.step rv64Decoders st0 memC8) 0 = some 4 ∧
    stepCause (Hart.step rv64Decoders st0 memC8) = some none :=
  ⟨by decide, by decide⟩

/-- Claim C8 (amended): x[0] is reset to zero at the start of every step, so
after every completed step whose fetched word has a nonzero rd bit-field
(bits 11:7), x[0] = 0; only an instruction naming destination x0 can leave
x[0] nonzero, repaired at the next step prologue. -/
theorem c8_amended (s0 : State) (g : GuestMem)
    (out : State × GuestMem × Option BreakCause)
    (hstep : Hart.step rv64Decoders s0 g = .ok out)
    (hraw : ∀ raw, g.read_u32 s0.pc = .ok raw → raw >>> 7 &&& 0x1f ≠ 0) :
    out.1.x 0 = 0 :=
  step_x0 hstep hraw

/-- Claim C8 witness: a completed step of addi x1, x0, 1 leaves x[0] = 0. -/
theorem c8_witness : stepX (Hart.step rv64Decoders st0 memC8w) 0 = some 0 := by
  have hok : (Hart.step rv64Decoders st0 memC8w).isOk = true := by decide
  rcases h : Hart.step rv64Decoders st0 memC8w with out | e | _
  · have hx := c8_amended st0 memC8w out h (fun raw hr => by
      have h2 : GuestMem.read_u32 memC8w st0.pc = .ok 0x00100093 := rfl
      rw [h2] at hr
      rw [show raw = 0x00100093 from (Outcome.ok.inj hr).symm]
      decide)
    simp [stepX, hx]
  · rw [h] at hok
    simp [Outcome.isOk] at hok
  · rw [h] at hok
    simp [Outcome.isOk] at hok

/-- Claim C9: write_uN then read_uN at the same (arbitrarily aligned) address
returns exactly the written N-bit value, for every address range inside a
single READ|WRITE segment, N in {8, 16, 32, 64}, little-endian. -/
theorem c9_roundtrip (g : GuestMem) (hwf : g.WF) (t : MemSegment)
    (ht : t ∈ g.segments) (hr : t.allows .read) (hw : t.allows .write)
    (a v : Nat) (hlo : t.gaddr_start ≤ a) :
    (v < 2 ^ 8 → a + 1 ≤ t.m_gaddr_end →
      ∃ g2, g.write_u8 a v = .ok g2 ∧ g2.read_u8 a = .ok v) ∧
    (v < 2 ^ 16 → a + 2 ≤ t.m_gaddr_end →
      ∃ g2, g.write_u16 a v = .ok g2 ∧ g2.read_u16 a = .ok v) ∧
    (v < 2 ^ 32 → a + 4 ≤ t.m_gaddr_end →
      ∃ g2, g.write_u32 a v = .ok g2 ∧ g2.read_u32 a = .ok v) ∧
    (v < 2 ^ 64 → a + 8 ≤ t.m_gaddr_end →
      ∃ g2, g.write_u64 a v = .ok g2 ∧ g2.read_u64 a = .ok v) := by
  obtain ⟨i, hget⟩ := mem_getIdx ht
  exact ⟨fun _ hhi => write_read_u8 hwf hget hr hw hlo hhi,
    fun hv hhi => write_read_u16 hwf hget hr hw hlo hhi hv,
    fun hv hhi => write_read_u32 hwf hget hr hw hlo hhi hv,
    fun hv hhi => write_read_u64 hwf hget hr hw hlo hhi hv⟩

/-- Claim C9 witness: a concrete unaligned u64 round trip and a u16 round trip
near the end of the segment. -/
theorem c9_witness :
    (∃ g2, GuestMem.write_u64 memRW 0x1001 0xDEADBEEFCAFEBABE = .ok g2 ∧
      GuestMem.read_u64 g2 0x1001 = .ok 0xDEADBEEFCAFEBABE) ∧
    (∃ g2, GuestMem.write_u16 memRW 0x1FFE 0xBEEF = .ok g2 ∧
      GuestMem.read_u16 g2 0x1FFE = .ok 0xBEEF) := by
  have hmem : segOf memRW ∈ memRW.segments := by
    rw [show memRW.segments = [segOf memRW] from rfl]
    exact List.mem_cons_self _ _
  have h1 := c9_roundtrip memRW (by decide) (segOf memRW) hmem (by decide)
    (by decide) 0x1001 0xDEADBEEFCAFEBABE (by decide)
  have h2 := c9_roundtrip memRW (by decide) (segOf memRW) hmem (by decide)
    (by decide) 0x1FFE 0xBEEF (by decide)
  exact ⟨h1.2.2.2 (by decide) (by decide), h2.2.1 (by decide) (by decide)⟩

/-- Claim C10: jalr reads x[rs1] before writing the link value, so even when
rd = rs1 the new pc is (old x[rs1] + sign_extend(imm_i, 12)) with bit 0
cleared, and x[rd] ends as old pc + 4. -/
theorem c10_jalr (s : State) (g : GuestMem) (imm rs1 funct3 rd opcode raw : Nat) :
    ∃ s2, rv64i_jalr s g (.I imm rs1 funct3 rd opcode raw) = .ok (s2, g) ∧
      s2.pc = asU64 (toI64 (s.x rs1) + sign_extend imm 12) &&& (U64 - 2) ∧
      s2.x rd = (s.pc + 4) % U64 := by
  refine ⟨_, rfl, rfl, ?_⟩
  simp [updX]

end Rvemu
